import Mathlib

/-!
Verification development for the `jsonschema_serialize_fork` JSON Schema
validation and serialization engine.

The repository ships the package re-export module and its test suite; the
engine itself (validators, reference resolver, error model, serializer) is
described by the specification.  The definitions below are therefore a
shallow embedding of that engine: JSON values are a Lean inductive type,
schemas are JSON values (boolean or object, as in the spec), the validator
core is a fuel-indexed recursive dispatch over schema keywords, the
serializer is the mirrored traversal that fills in `default` values, and the
error model is a structure with `path`, `schema_path` and `cause` plus the
`ErrorTree` aggregator.  Fuel bounds the recursion (the Python engine relies
on the interpreter recursion limit for pathological cyclic `$ref` chains);
all theorems quantify over the fuel.
-/

/-- Runtime representation tag for JSON objects: the engine distinguishes
order-preserving containers (`OrderedDict`) from plain unordered mappings
(`dict`).  The Type Checker designates which representations count as
`"object"` and which one is preferred for serializer output. -/
inductive ObjKind where
  | ordered
  | unordered
deriving DecidableEq, Repr

/-- A JSON value.  Schemas and instances are both `JSON` values, as in the
source data model: a schema is either a boolean or an object mapping keyword
names to arbitrary JSON values.  Numbers are modelled as integers (no claim
in scope depends on float/int distinctions).  Objects carry their runtime
representation tag and an ordered field list. -/
inductive JSON where
  | null
  | bool (b : Bool)
  | num (n : Int)
  | str (s : String)
  | arr (elems : List JSON)
  | obj (kind : ObjKind) (fields : List (String × JSON))
deriving Repr

mutual
/-- Structural equality on JSON values (deep equality). -/
def JSON.beq : JSON → JSON → Bool
  | .null, .null => true
  | .bool a, .bool b => a = b
  | .num a, .num b => a = b
  | .str a, .str b => a = b
  | .arr xs, .arr ys => beqList xs ys
  | .obj k fs, .obj k2 gs => k = k2 && beqFields fs gs
  | _, _ => false
/-- Deep equality on JSON arrays, elementwise. -/
def beqList : List JSON → List JSON → Bool
  | [], [] => true
  | x :: xs, y :: ys => x.beq y && beqList xs ys
  | _, _ => false
/-- Deep equality on JSON object field lists, pairwise. -/
def beqFields : List (String × JSON) → List (String × JSON) → Bool
  | [], [] => true
  | f :: fs, g :: gs => (f.1 = g.1 : Bool) && f.2.beq g.2 && beqFields fs gs
  | _, _ => false
end

instance : BEq JSON := ⟨JSON.beq⟩

/-- First-match lookup in an association list, as Python `dict`/mapping
lookup (field lists of well-formed JSON objects have unique keys). -/
def lookupKey {κ α : Type} [DecidableEq κ] : List (κ × α) → κ → Option α
  | [], _ => none
  | f :: fs, k => if f.1 = k then some f.2 else lookupKey fs k

/-- Flatten the per-element error lists produced by a traversal, in order
(the lazy generator flattening of the validator core). -/
def collect {α β : Type} (f : α → List β) : List α → List β
  | [] => []
  | x :: xs => f x ++ collect f xs

/-- Keys of an association list are pairwise distinct (Python mappings
cannot carry duplicate keys; the assoc-list embedding can, so well-formed
values exclude that). -/
def keysNodup {α : Type} : List (String × α) → Bool
  | [] => true
  | f :: fs => (lookupKey fs f.1).isNone && keysNodup fs

mutual
/-- Well-formed JSON value: every object in it has pairwise-distinct keys.
Values decoded from JSON text (the only inputs the engine sees) satisfy
this. -/
def JSON.wf : JSON → Bool
  | .null => true
  | .bool _ => true
  | .num _ => true
  | .str _ => true
  | .arr xs => wfList xs
  | .obj _ fs => keysNodup fs && wfFields fs
/-- All members of a JSON array are well-formed. -/
def wfList : List JSON → Bool
  | [] => true
  | x :: xs => x.wf && wfList xs
/-- All values of a JSON object field list are well-formed. -/
def wfFields : List (String × JSON) → Bool
  | [] => true
  | f :: fs => f.2.wf && wfFields fs
end

/-- One segment of an instance path or schema path: an object key or an
array index. -/
inductive Seg where
  | key (k : String)
  | idx (n : Nat)
deriving DecidableEq, Repr

/-- One path starts with another: `startsWithSegs p q` holds when `q` begins
with the segments of `p`, in order. -/
def startsWithSegs : List Seg → List Seg → Bool
  | [], _ => true
  | _ :: _, [] => false
  | a :: as, b :: bs => (a = b : Bool) && startsWithSegs as bs

/-- Modelled from the spec: `RefResolutionError` — a reference could not be
resolved (missing document, missing pointer target).  Raised directly by
standalone resolution; wrapped into a `ValidationError` when hit
mid-validation.  The class itself lives in the missing `exceptions` module;
only its re-export appears in the repository. -/
structure RefResolutionError where
  ref : String
deriving DecidableEq, Repr

/-- Modelled from the spec: `ValidationError` — one nonconformance, with the
attributes the claims exercise: human `message`, the failing keyword
`validator`, the instance `path` and schema `schemaPath` (both relative to
the error site and extended one segment per recursion boundary), and the
optional underlying resolver error `cause`.  The class lives in the missing
`exceptions` module. -/
structure VError where
  message : String
  validator : String
  path : List Seg
  schemaPath : List Seg
  cause : Option RefResolutionError
deriving DecidableEq, Repr

/-- Build a fresh error at the current validation site (empty relative
paths, no cause). -/
def mkErr (msg v : String) : VError :=
  ⟨msg, v, [], [], none⟩

/-- Push one instance-path and schema-path segment when an error crosses a
recursion boundary into a subschema applied at `seg` (the `descend` step of
the validator core). -/
def VError.descend (seg : Seg) (e : VError) : VError :=
  { e with path := seg :: e.path, schemaPath := seg :: e.schemaPath }

/-- Push the dispatching keyword onto the schema path when an error is
yielded upward by that keyword validation function. -/
def VError.inKeyword (k : String) (e : VError) : VError :=
  { e with schemaPath := Seg.key k :: e.schemaPath }

/-- Modelled from the spec: the Type Checker — a draft-versioned registry
mapping abstract type names to predicates over runtime representations.
Only the `"object"` entry is configurable in the claims in scope: it lists
which container representations count as an object, and its head is the
preferred construction representation used by the serializer.  The
`_types` module carrying `TypeChecker` is missing from the repository. -/
structure TypeChecker where
  objectKinds : List ObjKind
deriving DecidableEq, Repr

/-- Modelled from the spec: `is_type(instance, type_name)` — the instance
runtime shape matches the abstract type name.  Numbers are integers in this
embedding, so `"integer"` and `"number"` coincide (all covered drafts accept
integral-valued numbers as integers). -/
def TypeChecker.isType (tc : TypeChecker) (inst : JSON) (t : String) : Bool :=
  match t with
  | "object" => match inst with
    | .obj k _ => tc.objectKinds.contains k
    | _ => false
  | "array" => match inst with
    | .arr _ => true
    | _ => false
  | "string" => match inst with
    | .str _ => true
    | _ => false
  | "boolean" => match inst with
    | .bool _ => true
    | _ => false
  | "integer" => match inst with
    | .num _ => true
    | _ => false
  | "number" => match inst with
    | .num _ => true
    | _ => false
  | "null" => match inst with
    | .null => true
    | _ => false
  | _ => false

/-- Modelled from the spec: the preferred construction representation for
`"object"` output — the first representation the Type Checker designates,
falling back to the default unordered mapping. -/
def TypeChecker.preferredObjectKind (tc : TypeChecker) : ObjKind :=
  tc.objectKinds.headD .unordered

/-- The default Type Checker: `"object"` is the plain unordered mapping
(`dict`); order-preserving containers are subclasses of it and are also
accepted, but plain `dict` is preferred for output. -/
def defaultTypeChecker : TypeChecker :=
  ⟨[.unordered, .ordered]⟩

/-- Modelled from the spec: the Reference Resolver, reduced to what the
claims exercise — a mapping from absolute URI to schema document (the
document cache / injected retrieval function).  The `validators` module
carrying `RefResolver` is missing from the repository. -/
structure Resolver where
  store : List (String × JSON)
deriving Repr

/-- Modelled from the spec: `resolve(ref) -> schema` — return the schema a
reference denotes, failing with a `RefResolutionError` when the reference
has no target.  Invoked standalone, the failure is raised directly (the
`Except.error` result). -/
def Resolver.resolve (res : Resolver) (r : String) : Except RefResolutionError JSON :=
  match lookupKey res.store r with
  | some s => .ok s
  | none => .error ⟨r⟩

/-- All documents held by the resolver are well-formed JSON. -/
def Resolver.storeWf (res : Resolver) : Bool :=
  wfFields res.store

/-- A resolver with an empty document store. -/
def emptyResolver : Resolver :=
  ⟨[]⟩

/-- Read a string out of a JSON value (used for `type` name lists). -/
def strName : JSON → Option String
  | .str s => some s
  | _ => none

/-- The `default` declaration of a subschema, when present. -/
def schemaDefault : JSON → Option JSON
  | .obj _ sfields => lookupKey sfields "default"
  | _ => none

/-- The subschema that applies to array element `j` under the schema object
fields `sfields`: single-schema `items` applies to every element, list-form
`items` applies positionally with a schema-valued `additionalItems`
governing the tail. -/
def arrayItemSchema (sfields : List (String × JSON)) (j : Nat) : Option JSON :=
  match lookupKey sfields "items" with
  | some (.arr subs) =>
    match subs[j]? with
    | some sub => some sub
    | none =>
      match lookupKey sfields "additionalItems" with
      | some (.obj ak afs) => some (.obj ak afs)
      | _ => none
  | some itemsVal => some itemsVal
  | none => none

/-- Modelled from the spec: the `type` keyword — the instance shape must
match at least one of the (possibly list-valued) declared type names. -/
def typeKeywordErrors (tc : TypeChecker) (sfields : List (String × JSON)) (inst : JSON) : List VError :=
  match lookupKey sfields "type" with
  | some (.str t) =>
    if tc.isType inst t then [] else [mkErr "instance is not of the declared type" "type"]
  | some (.arr ts) =>
    if (ts.filterMap strName).any (tc.isType inst) then []
    else [mkErr "instance is not of any declared type" "type"]
  | _ => []

/-- Validity of the `type` keyword alone (short-circuit form). -/
def typeKeywordOk (tc : TypeChecker) (sfields : List (String × JSON)) (inst : JSON) : Bool :=
  match lookupKey sfields "type" with
  | some (.str t) => tc.isType inst t
  | some (.arr ts) => (ts.filterMap strName).any (tc.isType inst)
  | _ => true

/-- Modelled from the spec: the draft4+ `required` keyword — every listed
property name must be present in an object instance. -/
def requiredKeywordErrors (tc : TypeChecker) (sfields : List (String × JSON)) (inst : JSON) : List VError :=
  match lookupKey sfields "required", inst with
  | some (.arr reqs), .obj ki ifs =>
    if tc.objectKinds.contains ki then
      reqs.filterMap fun x =>
        match x with
        | .str p =>
          if (lookupKey ifs p).isSome then none
          else some (mkErr (p ++ " is a required property") "required")
        | _ => none
    else []
  | _, _ => []

/-- Validity of the `required` keyword alone (short-circuit form). -/
def requiredKeywordOk (tc : TypeChecker) (sfields : List (String × JSON)) (inst : JSON) : Bool :=
  match lookupKey sfields "required", inst with
  | some (.arr reqs), .obj ki ifs =>
    if tc.objectKinds.contains ki then
      reqs.all fun x =>
        match x with
        | .str p => (lookupKey ifs p).isSome
        | _ => true
    else true
  | _, _ => true

/-- Modelled from the spec: the `properties` keyword — each declared
property whose name is present in an object instance has its value
validated against the corresponding subschema, the child errors descending
through the property name.  `rec` is the validator recursion at the next
fuel level. -/
def propertiesKeywordErrors (tc : TypeChecker) (rec : JSON → JSON → List VError)
    (sfields : List (String × JSON)) (inst : JSON) : List VError :=
  match lookupKey sfields "properties", inst with
  | some (.obj _ props), .obj ki ifs =>
    if tc.objectKinds.contains ki then
      collect (fun ps =>
        match lookupKey ifs ps.1 with
        | some v => (rec ps.2 v).map (VError.descend (.key ps.1))
        | none => []) props
    else []
  | _, _ => []

/-- Validity of the `properties` keyword alone (short-circuit form). -/
def propertiesKeywordOk (tc : TypeChecker) (recOk : JSON → JSON → Bool)
    (sfields : List (String × JSON)) (inst : JSON) : Bool :=
  match lookupKey sfields "properties", inst with
  | some (.obj _ props), .obj ki ifs =>
    if tc.objectKinds.contains ki then
      props.all fun ps =>
        match lookupKey ifs ps.1 with
        | some v => recOk ps.2 v
        | none => true
    else true
  | _, _ => true

/-- List-form `items`: element `j` is validated against the `j`-th declared
subschema, positionally; elements beyond the declared list are left to
`additionalItems`. -/
def itemsListErrors (rec : JSON → JSON → List VError) (subs : List JSON) :
    Nat → List JSON → List VError
  | _, [] => []
  | j, e :: es =>
    (match subs[j]? with
     | some sub => (rec sub e).map (VError.descend (.idx j))
     | none => []) ++ itemsListErrors rec subs (j + 1) es

/-- Short-circuit form of `itemsListErrors`. -/
def itemsListOk (recOk : JSON → JSON → Bool) (subs : List JSON) :
    Nat → List JSON → Bool
  | _, [] => true
  | j, e :: es =>
    (match subs[j]? with
     | some sub => recOk sub e
     | none => true) && itemsListOk recOk subs (j + 1) es

/-- Single-schema `items`: every element is validated against the one
subschema, the child errors descending through the element index. -/
def itemsSingleErrors (rec : JSON → JSON → List VError) (sub : JSON) :
    Nat → List JSON → List VError
  | _, [] => []
  | j, e :: es =>
    (rec sub e).map (VError.descend (.idx j)) ++ itemsSingleErrors rec sub (j + 1) es

/-- Short-circuit form of `itemsSingleErrors`. -/
def itemsSingleOk (recOk : JSON → JSON → Bool) (sub : JSON) :
    Nat → List JSON → Bool
  | _, [] => true
  | j, e :: es => recOk sub e && itemsSingleOk recOk sub (j + 1) es

/-- Modelled from the spec: the `items` keyword — array element checks,
list-form `items` applying positionally and single-schema `items` applying
to every element. -/
def itemsKeywordErrors (rec : JSON → JSON → List VError)
    (sfields : List (String × JSON)) (inst : JSON) : List VError :=
  match lookupKey sfields "items", inst with
  | some (.arr subs), .arr elems => itemsListErrors rec subs 0 elems
  | some itemsVal, .arr elems => itemsSingleErrors rec itemsVal 0 elems
  | _, _ => []

/-- Validity of the `items` keyword alone (short-circuit form). -/
def itemsKeywordOk (recOk : JSON → JSON → Bool)
    (sfields : List (String × JSON)) (inst : JSON) : Bool :=
  match lookupKey sfields "items", inst with
  | some (.arr subs), .arr elems => itemsListOk recOk subs 0 elems
  | some itemsVal, .arr elems => itemsSingleOk recOk itemsVal 0 elems
  | _, _ => true

/-- Schema-valued `additionalItems`: tail elements (beyond the list-form
`items` declarations) are each validated against it. -/
def addItemsErrors (rec : JSON → JSON → List VError) (aI : JSON) (cutoff : Nat) :
    Nat → List JSON → List VError
  | _, [] => []
  | j, e :: es =>
    (if j < cutoff then [] else (rec aI e).map (VError.descend (.idx j))) ++
      addItemsErrors rec aI cutoff (j + 1) es

/-- Short-circuit form of `addItemsErrors`. -/
def addItemsOk (recOk : JSON → JSON → Bool) (aI : JSON) (cutoff : Nat) :
    Nat → List JSON → Bool
  | _, [] => true
  | j, e :: es => (j < cutoff || recOk aI e) && addItemsOk recOk aI cutoff (j + 1) es

/-- Modelled from the spec: the `additionalItems` keyword — only meaningful
when `items` is list-form; a schema value governs the tail elements, the
boolean `false` forbids any element beyond the declared list. -/
def additionalItemsKeywordErrors (rec : JSON → JSON → List VError)
    (sfields : List (String × JSON)) (inst : JSON) : List VError :=
  match lookupKey sfields "additionalItems", lookupKey sfields "items", inst with
  | some (.obj ak afs), some (.arr subs), .arr elems =>
    addItemsErrors rec (.obj ak afs) subs.length 0 elems
  | some (.bool false), some (.arr subs), .arr elems =>
    if subs.length < elems.length then
      [mkErr "Additional items are not allowed" "additionalItems"]
    else []
  | _, _, _ => []

/-- Validity of the `additionalItems` keyword alone (short-circuit form). -/
def additionalItemsKeywordOk (recOk : JSON → JSON → Bool)
    (sfields : List (String × JSON)) (inst : JSON) : Bool :=
  match lookupKey sfields "additionalItems", lookupKey sfields "items", inst with
  | some (.obj ak afs), some (.arr subs), .arr elems =>
    addItemsOk recOk (.obj ak afs) subs.length 0 elems
  | some (.bool false), some (.arr subs), .arr elems =>
    decide (elems.length ≤ subs.length)
  | _, _, _ => true

/-- The error yielded when the fuel bound is hit: the Python engine has no
such bound and would exhaust the interpreter recursion limit; the embedding
cuts the recursion off uniformly with a synthetic error. -/
def recursionError : VError :=
  mkErr "maximum schema recursion depth exceeded" "recursion"

/-- The error synthesized for the boolean schema `false`, which allows
nothing. -/
def falseSchemaError : VError :=
  mkErr "False schema does not allow anything" "false-schema"

/-- The `ValidationError` wrapping a resolver failure for reference `r`:
its `cause` carries the underlying `RefResolutionError`. -/
def refFailure (r : String) (e : RefResolutionError) : VError :=
  ⟨"unresolvable ref " ++ r, "$ref", [], [], some e⟩

/-- The keyword dispatch of the validator core when no `$ref` is present:
each keyword present in the schema object is dispatched in the fixed
priority order `type`, `required`, `properties`, `items`,
`additionalItems`, each yielded error extended by the dispatching
keyword. -/
def keywordDispatchErrors (tc : TypeChecker) (rec : JSON → JSON → List VError)
    (sfields : List (String × JSON)) (inst : JSON) : List VError :=
  (typeKeywordErrors tc sfields inst).map (VError.inKeyword "type") ++
  (requiredKeywordErrors tc sfields inst).map (VError.inKeyword "required") ++
  (propertiesKeywordErrors tc rec sfields inst).map (VError.inKeyword "properties") ++
  (itemsKeywordErrors rec sfields inst).map (VError.inKeyword "items") ++
  (additionalItemsKeywordErrors rec sfields inst).map (VError.inKeyword "additionalItems")

/-- Short-circuit form of the keyword dispatch. -/
def keywordDispatchOk (tc : TypeChecker) (recOk : JSON → JSON → Bool)
    (sfields : List (String × JSON)) (inst : JSON) : Bool :=
  typeKeywordOk tc sfields inst &&
  requiredKeywordOk tc sfields inst &&
  propertiesKeywordOk tc recOk sfields inst &&
  itemsKeywordOk recOk sfields inst &&
  additionalItemsKeywordOk recOk sfields inst

/-- Modelled from the spec: `iter_errors(instance, schema)` — the validator
core.  A boolean schema accepts or rejects outright; otherwise, when `$ref`
is present it short-circuits every sibling keyword (resolution failure
surfacing as a `ValidationError` whose `cause` is the resolver error);
otherwise each keyword present in the schema is dispatched in the fixed
priority order `type`, `required`, `properties`, `items`,
`additionalItems`, each error extended by the dispatching keyword.  The
first argument is the fuel bounding recursion depth. -/
def iterErrors (tc : TypeChecker) (res : Resolver) : Nat → JSON → JSON → List VError
  | 0, _, _ => [recursionError]
  | n + 1, schema, inst =>
    match schema with
    | .bool true => []
    | .bool false => [falseSchemaError]
    | .obj _ sfields =>
      match lookupKey sfields "$ref" with
      | some (.str r) =>
        (match res.resolve r with
         | .error e => [refFailure r e]
         | .ok target => iterErrors tc res n target inst).map (VError.inKeyword "$ref")
      | _ => keywordDispatchErrors tc (iterErrors tc res n) sfields inst
    | _ => []

/-- Modelled from the spec: `is_valid(instance)` — `iter_errors` with
short-circuit on the first error, computed directly as a boolean over the
same dispatch. -/
def isValid (tc : TypeChecker) (res : Resolver) : Nat → JSON → JSON → Bool
  | 0, _, _ => false
  | n + 1, schema, inst =>
    match schema with
    | .bool b => b
    | .obj _ sfields =>
      match lookupKey sfields "$ref" with
      | some (.str r) =>
        (match res.resolve r with
         | .error _ => false
         | .ok target => isValid tc res n target inst)
      | _ => keywordDispatchOk tc (isValid tc res n) sfields inst
    | _ => true

/-- Modelled from the spec: `validate(instance)` — fails with the first
error found in keyword-dispatch order when the instance is invalid, returns
without raising otherwise (`some`/`none` embed raising/returning). -/
def modelValidate (tc : TypeChecker) (res : Resolver) (n : Nat) (schema inst : JSON) : Option VError :=
  (iterErrors tc res n schema inst).head?

/-- Modelled from the spec: the `properties` step of the serializer — for
every declared property, in the schema declaration order, the output gets
the recursively serialized instance value when present, else a copy of the
subschema `default` (itself recursively serialized, so nested defaults
apply transitively), else nothing.  `rec` is the serializer recursion at
the next fuel level. -/
def serveEntry (rec : JSON → JSON → JSON) (ifs : List (String × JSON))
    (ps : String × JSON) : Option (String × JSON) :=
  match lookupKey ifs ps.1 with
  | some v => some (ps.1, rec ps.2 v)
  | none =>
    match schemaDefault ps.2 with
    | some d => some (ps.1, rec ps.2 d)
    | none => none

/-- The served declared properties: every declared property in schema
order, bound by `serveEntry`, properties with neither an instance value nor
a default dropped. -/
def serveFields (rec : JSON → JSON → JSON) (props ifs : List (String × JSON)) :
    List (String × JSON) :=
  props.filterMap (serveEntry rec ifs)

/-- The instance-original fields not mentioned in the schema declared
properties, in their original relative order, copied unchanged. -/
def untouchedFields (props ifs : List (String × JSON)) : List (String × JSON) :=
  ifs.filter fun f => (lookupKey props f.1).isNone

/-- The `items` step of the serializer: each array element is recursively
serialized against the subschema applying at its index, starting at `j`. -/
def serveItems (rec : JSON → JSON → JSON) (sfields : List (String × JSON)) :
    Nat → List JSON → List JSON
  | _, [] => []
  | j, e :: es =>
    (match arrayItemSchema sfields j with
     | some sub => rec sub e
     | none => e) :: serveItems rec sfields (j + 1) es

/-- The keyword dispatch of the serializer when no `$ref` is present: an
object instance with declared `properties` is rebuilt in the Type Checker
preferred representation as the served declared properties followed by the
untouched instance-original fields; an array instance under `items` has
its elements served pointwise; everything else is returned unchanged. -/
def serializeDispatch (tc : TypeChecker) (rec : JSON → JSON → JSON)
    (sfields : List (String × JSON)) (inst : JSON) : JSON :=
  match inst with
  | .obj ki ifs =>
    match lookupKey sfields "properties" with
    | some (.obj _ props) =>
      if tc.objectKinds.contains ki then
        .obj tc.preferredObjectKind
          (serveFields rec props ifs ++ untouchedFields props ifs)
      else inst
    | _ => inst
  | .arr elems =>
    match lookupKey sfields "items" with
    | some _ => .arr (serveItems rec sfields 0 elems)
    | none => inst
  | _ => inst

/-- Modelled from the spec: the transformation half of `serialize` — a
traversal mirroring the validator dispatch that produces a new instance
with schema-declared defaults filled into absent object properties.  The
output object container is the Type Checker preferred representation, its
fields following the schema declared `properties` order first and then the
untouched instance-original fields; `$ref` short-circuits siblings, a
failed resolution leaves the value untransformed (the failure is reported
by the mirrored validation).  The instance is never mutated; fuel bounds
recursion as in `iterErrors`. -/
def applyDefaults (tc : TypeChecker) (res : Resolver) : Nat → JSON → JSON → JSON
  | 0, _, inst => inst
  | n + 1, schema, inst =>
    match schema with
    | .obj _ sfields =>
      match lookupKey sfields "$ref" with
      | some (.str r) =>
        (match res.resolve r with
         | .error _ => inst
         | .ok target => applyDefaults tc res n target inst)
      | _ => serializeDispatch tc (applyDefaults tc res n) sfields inst
    | _ => inst

/-- Modelled from the spec: `Core.serialize(instance) -> (instance,
errors)` — the transformed instance together with every error the mirrored
validation encounters; validation failures are collected into the returned
sequence, never raised. -/
def coreSerialize (tc : TypeChecker) (res : Resolver) (n : Nat) (schema inst : JSON) :
    JSON × List VError :=
  (applyDefaults tc res n schema inst, iterErrors tc res n schema inst)

/-- Modelled from the spec: the module-level `serialize(instance, schema)`
convenience entry point.  The spec describes it as returning the
`(instance, errors)` pair, but the test suite in
`src/jsonschema/tests/test_jsonschema_test_suite.py` pins the actual
contract: it returns the bare transformed instance for valid data and
raises the first collected `ValidationError` for invalid data
(`Except.error` embeds raising). -/
def moduleSerialize (tc : TypeChecker) (res : Resolver) (n : Nat) (schema inst : JSON) :
    Except VError JSON :=
  match coreSerialize tc res n schema inst with
  | (result, []) => .ok result
  | (_, e :: _) => .error e

/-- An `Except` result embeds a raised exception. -/
def isError {ε α : Type} : Except ε α → Bool
  | .error _ => true
  | .ok _ => false

/-- Pointwise only-defaults-added check for array elements starting at
index `j`: output elements relate to input elements under the subschema
applying at their index, and are deep-equal where no subschema applies. -/
def itemsOnlyDefaults (rel : JSON → JSON → JSON → Bool) (sfields : List (String × JSON)) :
    Nat → List JSON → List JSON → Bool
  | _, [], [] => true
  | j, e :: es, o :: os =>
    (match arrayItemSchema sfields j with
     | some sub => rel sub e o
     | none => o == e) && itemsOnlyDefaults rel sfields (j + 1) es os
  | _, _, _ => false

/-- The declarative only-defaults-added check at one dispatch level, for an
instance with no applicable `$ref`: an object instance with declared
`properties` requires every input field present in the output with a value
related under the applicable subschema (deep-equal when the key is not
declared) and every output field absent from the input to be a declared
property carrying a `default` with its value related to that default; an
array instance under `items` requires the same length and pointwise
related elements; everything else must be deep-equal. -/
def onlyDefaultsDispatch (tc : TypeChecker) (rel : JSON → JSON → JSON → Bool)
    (sfields : List (String × JSON)) (i o : JSON) : Bool :=
  match i with
  | .obj ki ifs =>
    match lookupKey sfields "properties" with
    | some (.obj _ props) =>
      if tc.objectKinds.contains ki then
        match o with
        | .obj _ ofs =>
          (ifs.all fun f =>
            match lookupKey ofs f.1 with
            | none => false
            | some w =>
              match lookupKey props f.1 with
              | some sub => rel sub f.2 w
              | none => w == f.2) &&
          (ofs.all fun g =>
            (lookupKey ifs g.1).isSome ||
            (match lookupKey props g.1 with
             | some sub =>
               match schemaDefault sub with
               | some d => rel sub d g.2
               | none => false
             | none => false))
        | _ => false
      else o == i
    | _ => o == i
  | .arr elems =>
    match lookupKey sfields "items" with
    | some _ =>
      match o with
      | .arr oelems => itemsOnlyDefaults rel sfields 0 elems oelems
      | _ => false
    | none => o == i
  | _ => o == i

/-- The testable-property statement of the spec, written declaratively:
output `o` deep-equals input `i` with only schema-declared defaulted
properties added.  The traversal conditions (which subschema applies
where, `$ref` short-circuiting siblings) mirror the validator dispatch. -/
def onlyDefaultsAdded (tc : TypeChecker) (res : Resolver) : Nat → JSON → JSON → JSON → Bool
  | 0, _, i, o => o == i
  | n + 1, schema, i, o =>
    match schema with
    | .obj _ sfields =>
      match lookupKey sfields "$ref" with
      | some (.str r) =>
        (match res.resolve r with
         | .error _ => o == i
         | .ok target => onlyDefaultsAdded tc res n target i o)
      | _ => onlyDefaultsDispatch tc (onlyDefaultsAdded tc res n) sfields i o
    | _ => o == i

/-- Modelled from the spec: `ErrorTree` — validation errors aggregated by
instance path.  A node stores the errors whose path ends at that node,
and child trees keyed by the next path segment.  The class lives in the
missing `exceptions` module. -/
inductive ETree where
  | node (errors : List VError) (children : List (Seg × ETree))

/-- The empty error tree (indexing a missing child yields one, as the
defaultdict-backed source container does). -/
def emptyTree : ETree :=
  .node [] []

/-- The errors stored directly on this node (root-level failures when the
node is the root). -/
def ETree.rootErrors : ETree → List VError
  | .node es _ => es

/-- The child subtrees of a node, keyed by path segment. -/
def ETree.children : ETree → List (Seg × ETree)
  | .node _ cs => cs

/-- The keys under which this node has child subtrees. -/
def ETree.childKeys (t : ETree) : List Seg :=
  t.children.map Prod.fst

/-- Replace the child keyed `s` with `t2`, creating it at the end when
absent (the mapping holds at most one entry per key). -/
def setChild (s : Seg) (t2 : ETree) : List (Seg × ETree) → List (Seg × ETree)
  | [] => [(s, t2)]
  | c :: cs => if c.1 = s then (s, t2) :: cs else c :: setChild s t2 cs

/-- Modelled from the spec: inserting one error into the tree — descend
along the error path, fetching or creating the child node per segment (the
source container is a defaultdict), and store the error on the node its
path ends at; an error with an empty path lands on the tree own error
list, not nested. -/
def ETree.insertPath : List Seg → VError → ETree → ETree
  | [], e, .node es cs => .node (es ++ [e]) cs
  | s :: rest, e, .node es cs =>
    .node es (setChild s (ETree.insertPath rest e ((lookupKey cs s).getD emptyTree)) cs)

/-- Modelled from the spec: `ErrorTree` construction from a flat error
sequence — each error is inserted at its `path`. -/
def ETree.ofErrors (errs : List VError) : ETree :=
  errs.foldl (fun t e => ETree.insertPath e.path e t) emptyTree

/-- The child subtree at segment `s`, empty when absent (source container
is a defaultdict, so indexing never fails). -/
def ETree.childAt (t : ETree) (s : Seg) : ETree :=
  (lookupKey t.children s).getD emptyTree

/-- Descend along a path prefix, the empty tree standing in for missing
nodes. -/
def subtreeGo : List Seg → ETree → ETree
  | [], t => t
  | s :: rest, t => subtreeGo rest (t.childAt s)

/-- `tree[p]`: the subtree addressed by path prefix `p`. -/
def ETree.subtreeAt (t : ETree) (p : List Seg) : ETree :=
  subtreeGo p t

mutual
/-- Total number of errors in the tree: the sum over the tree of the
per-node error lists. -/
def ETree.total : ETree → Nat
  | .node es cs => es.length + totalChildren cs
/-- Sum of subtree totals over a child list. -/
def totalChildren : List (Seg × ETree) → Nat
  | [] => 0
  | c :: cs => c.2.total + totalChildren cs
end

/-- The schema of the first serializer test: one declared property `foo`
defaulting to the string `bar`. -/
def propFooDefaultSchema : JSON :=
  .obj .unordered [("properties", .obj .unordered [("foo", .obj .unordered [("default", .str "bar")])])]

/-- The schema of the second serializer test: the `foo`-default properties
subschema sitting under `items`. -/
def itemsFooDefaultSchema : JSON :=
  .obj .unordered [("items", .obj .unordered [("properties", .obj .unordered [("foo", .obj .unordered [("default", .str "bar")])])])]

/-- The empty JSON object in the default (unordered) representation. -/
def emptyObj : JSON :=
  .obj .unordered []

/-- The instance with `foo` already set to `baz`. -/
def fooBazObj : JSON :=
  .obj .unordered [("foo", .str "baz")]

/-- A schema demanding a string instance. -/
def typeStringSchema : JSON :=
  .obj .unordered [("type", .str "string")]

/-- A schema both requiring `foo` and declaring a default for it: the
serializer fills the default into an instance that the mirrored validation
simultaneously reports as invalid. -/
def requiredFooSchema : JSON :=
  .obj .unordered
    [("required", .arr [.str "foo"]),
     ("properties", .obj .unordered [("foo", .obj .unordered [("default", .str "bar")])])]

/-- A schema whose `$ref` no resolver in scope can resolve. -/
def missingRefSchema : JSON :=
  .obj .unordered [("$ref", .str "http://example.com/missing")]

/-- A remote document that declares a defaulted property, standing in for
the official suite remote-`$ref` documents (the draft meta-schemas, which
carry `default` declarations). -/
def remoteDefaultsDoc : JSON :=
  .obj .unordered [("properties", .obj .unordered [("extra", .obj .unordered [("default", .str "added")])])]

/-- A schema that is a bare remote reference. -/
def remoteRefSchema : JSON :=
  .obj .unordered [("$ref", .str "http://example.com/schema")]

/-- A resolver holding the remote defaults document. -/
def remoteResolver : Resolver :=
  ⟨[("http://example.com/schema", remoteDefaultsDoc)]⟩

/-- The schema of the ordering serializer tests: two declared properties
`foo` then `bar`, both unconstrained. -/
def orderSchema : JSON :=
  .obj .unordered [("properties", .obj .unordered [("foo", emptyObj), ("bar", emptyObj)])]

/-- A Type Checker designating the order-preserving representation as
preferred while still accepting plain mappings, as the ordering test passes
`types = (OrderedDict, dict)`. -/
def orderedPreferringChecker : TypeChecker :=
  ⟨[.ordered, .unordered]⟩

/-- A plain unordered instance listing `bar` before `foo`. -/
def barFooObj : JSON :=
  .obj .unordered [("bar", .num 1), ("foo", .num 2)]

/-- An error at instance path `a`. -/
def errA : VError :=
  ⟨"err a", "type", [.key "a"], [], none⟩

/-- An error at instance path `a.b`. -/
def errAB : VError :=
  ⟨"err ab", "type", [.key "a", .key "b"], [], none⟩

/-- An error at instance path `c`. -/
def errC : VError :=
  ⟨"err c", "type", [.key "c"], [], none⟩

mutual
/-- Deep equality is reflexive. -/
theorem JSON.beq_refl : ∀ a : JSON, JSON.beq a a = true
  | .null => rfl
  | .bool b => by simp [JSON.beq]
  | .num n => by simp [JSON.beq]
  | .str s => by simp [JSON.beq]
  | .arr xs => by simp [JSON.beq, beqList_refl xs]
  | .obj k fs => by simp [JSON.beq, beqFields_refl fs]
/-- Elementwise deep equality is reflexive. -/
theorem beqList_refl : ∀ xs : List JSON, beqList xs xs = true
  | [] => rfl
  | x :: xs => by simp [beqList, JSON.beq_refl x, beqList_refl xs]
/-- Pairwise deep equality on field lists is reflexive. -/
theorem beqFields_refl : ∀ fs : List (String × JSON), beqFields fs fs = true
  | [] => rfl
  | f :: fs => by simp [beqFields, JSON.beq_refl f.2, beqFields_refl fs]
end

/-- Deep equality as the `BEq` instance is reflexive. -/
theorem beq_self (a : JSON) : (a == a) = true :=
  JSON.beq_refl a

/-- Values that deep-compare unequal are unequal. -/
theorem JSON.ne_of_beq_false {a b : JSON} (h : (a == b) = false) : a ≠ b := by
  intro heq
  subst heq
  exact Bool.noConfusion ((beq_self a).symm.trans h)

/-- Lookup distributes over append: the left list wins when it has the
key. -/
theorem lookupKey_append_of_some {κ α : Type} [DecidableEq κ] {a : List (κ × α)} {k : κ} {v : α}
    (b : List (κ × α)) (h : lookupKey a k = some v) : lookupKey (a ++ b) k = some v := by
  induction a with
  | nil => simp [lookupKey] at h
  | cons f fs ih =>
    simp only [lookupKey, List.cons_append] at h ⊢
    by_cases hk : f.1 = k
    · rw [if_pos hk] at h ⊢
      exact h
    · rw [if_neg hk] at h ⊢
      exact ih h

/-- Lookup distributes over append: the right list is consulted when the
left lacks the key. -/
theorem lookupKey_append_of_none {κ α : Type} [DecidableEq κ] {a : List (κ × α)} {k : κ}
    (b : List (κ × α)) (h : lookupKey a k = none) : lookupKey (a ++ b) k = lookupKey b k := by
  induction a with
  | nil => simp
  | cons f fs ih =>
    simp only [lookupKey, List.cons_append] at h ⊢
    by_cases hk : f.1 = k
    · rw [if_pos hk] at h
      exact Option.noConfusion h
    · rw [if_neg hk] at h ⊢
      exact ih h

/-- A failed lookup means no entry has the key. -/
theorem lookupKey_eq_none_iff {κ α : Type} [DecidableEq κ] {fs : List (κ × α)} {k : κ} :
    lookupKey fs k = none ↔ ∀ f ∈ fs, f.1 ≠ k := by
  induction fs with
  | nil => simp [lookupKey]
  | cons f fs ih =>
    simp only [lookupKey, List.mem_cons]
    split
    · simp_all
    · simp_all

/-- A successful lookup returns a member entry. -/
theorem lookupKey_mem {κ α : Type} [DecidableEq κ] {fs : List (κ × α)} {k : κ} {v : α}
    (h : lookupKey fs k = some v) : (k, v) ∈ fs := by
  induction fs with
  | nil => simp [lookupKey] at h
  | cons f fs ih =>
    simp only [lookupKey] at h
    by_cases hk : f.1 = k
    · rw [if_pos hk] at h
      cases h
      subst hk
      exact List.mem_cons_self f fs
    · rw [if_neg hk] at h
      exact List.mem_cons_of_mem _ (ih h)

/-- Membership makes lookup succeed (with some value). -/
theorem lookupKey_isSome_of_mem {κ α : Type} [DecidableEq κ] {fs : List (κ × α)} {k : κ} {v : α}
    (h : (k, v) ∈ fs) : (lookupKey fs k).isSome = true := by
  induction fs with
  | nil => simp at h
  | cons f fs ih =>
    rcases List.mem_cons.mp h with h1 | h2
    · simp [lookupKey, ← h1]
    · simp only [lookupKey]
      split
      · simp
      · exact ih h2

/-- With pairwise-distinct keys, lookup of a member key returns exactly the
member value. -/
theorem lookupKey_of_mem_nodup {α : Type} {fs : List (String × α)} {k : String} {v : α}
    (hnd : keysNodup fs = true) (h : (k, v) ∈ fs) : lookupKey fs k = some v := by
  induction fs with
  | nil => simp at h
  | cons f fs ih =>
    simp only [keysNodup, Bool.and_eq_true, Option.isNone_iff_eq_none] at hnd
    rcases List.mem_cons.mp h with h1 | h2
    · subst h1
      simp [lookupKey]
    · simp only [lookupKey]
      split
      · rename_i heq
        exfalso
        have := lookupKey_eq_none_iff.mp hnd.1 (k, v) h2
        simp at this
        exact this heq.symm
      · exact ih hnd.2 h2

/-- Flattening produces no errors exactly when no element does. -/
theorem collect_eq_nil_iff {α β : Type} {f : α → List β} {l : List α} :
    collect f l = [] ↔ ∀ x ∈ l, f x = [] := by
  induction l with
  | nil => simp [collect]
  | cons x xs ih => simp_all [collect]

/-- All members of a well-formed field list are well-formed. -/
theorem wfFields_iff {fs : List (String × JSON)} :
    wfFields fs = true ↔ ∀ f ∈ fs, f.2.wf = true := by
  induction fs with
  | nil => simp [wfFields]
  | cons f fs ih => simp_all [wfFields]

/-- All members of a well-formed array body are well-formed. -/
theorem wfList_iff {xs : List JSON} :
    wfList xs = true ↔ ∀ x ∈ xs, x.wf = true := by
  induction xs with
  | nil => simp [wfList]
  | cons x xs ih => simp_all [wfList]

/-- Well-formedness of an object unfolds to distinct keys plus well-formed
values. -/
theorem wf_obj_iff {k : ObjKind} {fs : List (String × JSON)} :
    (JSON.obj k fs).wf = true ↔ keysNodup fs = true ∧ wfFields fs = true := by
  simp [JSON.wf]

/-- A value looked up in a well-formed field list is well-formed. -/
theorem wf_of_lookupKey {fs : List (String × JSON)} {k : String} {v : JSON}
    (hwf : wfFields fs = true) (h : lookupKey fs k = some v) : v.wf = true :=
  wfFields_iff.mp hwf _ (lookupKey_mem h)

/-- A document a well-formed resolver returns is well-formed. -/
theorem wf_of_resolve {res : Resolver} {r : String} {t : JSON}
    (hres : res.storeWf = true) (h : res.resolve r = .ok t) : t.wf = true := by
  unfold Resolver.resolve at h
  split at h
  · cases h
    exact wf_of_lookupKey hres (by assumption)
  · cases h

/-- The `type` keyword passes exactly when it yields no error. -/
theorem typeKeyword_iff (tc : TypeChecker) (sfields : List (String × JSON)) (inst : JSON) :
    typeKeywordOk tc sfields inst = true ↔ typeKeywordErrors tc sfields inst = [] := by
  unfold typeKeywordOk typeKeywordErrors
  cases hl : lookupKey sfields "type" with
  | none => simp
  | some j =>
    cases j with
    | str t => by_cases hc : tc.isType inst t <;> simp [hc]
    | arr ts => by_cases hc : (ts.filterMap strName).any (tc.isType inst) <;> simp [hc]
    | null => simp
    | bool b => simp
    | num n => simp
    | obj k fs => simp

/-- The `required` keyword passes exactly when it yields no error. -/
theorem requiredKeyword_iff (tc : TypeChecker) (sfields : List (String × JSON)) (inst : JSON) :
    requiredKeywordOk tc sfields inst = true ↔ requiredKeywordErrors tc sfields inst = [] := by
  unfold requiredKeywordOk requiredKeywordErrors
  cases hl : lookupKey sfields "required" with
  | none =>
    cases inst <;> simp
  | some j =>
    cases j with
    | arr reqs =>
      cases inst with
      | obj ki ifs =>
        dsimp only
        by_cases hki : tc.objectKinds.contains ki = true
        · simp only [if_pos hki, List.all_eq_true, List.filterMap_eq_nil_iff]
          apply forall_congr'
          intro x
          apply imp_congr_right
          intro hx
          cases x with
          | str p => by_cases hp : (lookupKey ifs p).isSome = true <;> simp [hp]
          | null => simp
          | bool b => simp
          | num n => simp
          | arr xs => simp
          | obj k2 fs2 => simp
        · simp only [if_neg hki]
      | null => simp
      | bool b => simp
      | num n => simp
      | str s => simp
      | arr xs => simp
    | null => cases inst <;> simp
    | bool b => cases inst <;> simp
    | num n => cases inst <;> simp
    | str s => cases inst <;> simp
    | obj k fs => cases inst <;> simp

/-- The `properties` keyword passes exactly when it yields no error, given
that the recursion underneath agrees. -/
theorem propertiesKeyword_iff (tc : TypeChecker) {recOk : JSON → JSON → Bool}
    {rec : JSON → JSON → List VError} (hrec : ∀ s v, recOk s v = true ↔ rec s v = [])
    (sfields : List (String × JSON)) (inst : JSON) :
    propertiesKeywordOk tc recOk sfields inst = true ↔
      propertiesKeywordErrors tc rec sfields inst = [] := by
  unfold propertiesKeywordOk propertiesKeywordErrors
  cases hl : lookupKey sfields "properties" with
  | none => cases inst <;> simp
  | some j =>
    cases j with
    | obj pk props =>
      cases inst with
      | obj ki ifs =>
        dsimp only
        by_cases hki : tc.objectKinds.contains ki = true
        · simp only [if_pos hki, List.all_eq_true, collect_eq_nil_iff]
          apply forall_congr'
          intro ps
          apply imp_congr_right
          intro hx
          cases hv : lookupKey ifs ps.1 with
          | none => simp
          | some v => simp [hrec ps.2 v]
        · simp only [if_neg hki]
      | null => simp
      | bool b => simp
      | num n => simp
      | str s => simp
      | arr xs => simp
    | null => cases inst <;> simp
    | bool b => cases inst <;> simp
    | num n => cases inst <;> simp
    | str s => cases inst <;> simp
    | arr xs => cases inst <;> simp

/-- Positional list-form `items` checking passes exactly when it yields no
error. -/
theorem itemsList_iff {recOk : JSON → JSON → Bool} {rec : JSON → JSON → List VError}
    (hrec : ∀ s v, recOk s v = true ↔ rec s v = []) (subs : List JSON) :
    ∀ es j, itemsListOk recOk subs j es = true ↔ itemsListErrors rec subs j es = [] := by
  intro es
  induction es with
  | nil => intro j; simp [itemsListOk, itemsListErrors]
  | cons e es ih =>
    intro j
    simp only [itemsListOk, itemsListErrors, List.append_eq_nil, Bool.and_eq_true, ih]
    apply and_congr_left'
    cases hs : subs[j]? with
    | none => simp
    | some sub => simp [hrec sub e]

/-- Single-schema `items` checking passes exactly when it yields no
error. -/
theorem itemsSingle_iff {recOk : JSON → JSON → Bool} {rec : JSON → JSON → List VError}
    (hrec : ∀ s v, recOk s v = true ↔ rec s v = []) (sub : JSON) :
    ∀ es j, itemsSingleOk recOk sub j es = true ↔ itemsSingleErrors rec sub j es = [] := by
  intro es
  induction es with
  | nil => intro j; simp [itemsSingleOk, itemsSingleErrors]
  | cons e es ih =>
    intro j
    simp only [itemsSingleOk, itemsSingleErrors, List.append_eq_nil, Bool.and_eq_true, ih]
    apply and_congr_left'
    simp [hrec sub e]

/-- The `items` keyword passes exactly when it yields no error, given that
the recursion underneath agrees. -/
theorem itemsKeyword_iff {recOk : JSON → JSON → Bool} {rec : JSON → JSON → List VError}
    (hrec : ∀ s v, recOk s v = true ↔ rec s v = [])
    (sfields : List (String × JSON)) (inst : JSON) :
    itemsKeywordOk recOk sfields inst = true ↔ itemsKeywordErrors rec sfields inst = [] := by
  unfold itemsKeywordOk itemsKeywordErrors
  cases hl : lookupKey sfields "items" with
  | none => cases inst <;> simp
  | some j =>
    cases j with
    | arr subs =>
      cases inst with
      | arr elems => exact itemsList_iff hrec subs elems 0
      | null => simp
      | bool b => simp
      | num n => simp
      | str s => simp
      | obj k fs => simp
    | null => cases inst <;> simp [itemsSingle_iff hrec]
    | bool b => cases inst <;> simp [itemsSingle_iff hrec]
    | num n => cases inst <;> simp [itemsSingle_iff hrec]
    | str s => cases inst <;> simp [itemsSingle_iff hrec]
    | obj k fs => cases inst <;> simp [itemsSingle_iff hrec]

/-- Tail checking under schema-valued `additionalItems` passes exactly when
it yields no error. -/
theorem addItems_iff {recOk : JSON → JSON → Bool} {rec : JSON → JSON → List VError}
    (hrec : ∀ s v, recOk s v = true ↔ rec s v = []) (aI : JSON) (cutoff : Nat) :
    ∀ es j, addItemsOk recOk aI cutoff j es = true ↔ addItemsErrors rec aI cutoff j es = [] := by
  intro es
  induction es with
  | nil => intro j; simp [addItemsOk, addItemsErrors]
  | cons e es ih =>
    intro j
    simp only [addItemsOk, addItemsErrors, List.append_eq_nil, Bool.and_eq_true, ih]
    apply and_congr_left'
    by_cases hj : j < cutoff
    · simp [hj]
    · simp [hj, hrec aI e]

/-- The `additionalItems` keyword passes exactly when it yields no error,
given that the recursion underneath agrees. -/
theorem additionalItemsKeyword_iff {recOk : JSON → JSON → Bool}
    {rec : JSON → JSON → List VError} (hrec : ∀ s v, recOk s v = true ↔ rec s v = [])
    (sfields : List (String × JSON)) (inst : JSON) :
    additionalItemsKeywordOk recOk sfields inst = true ↔
      additionalItemsKeywordErrors rec sfields inst = [] := by
  unfold additionalItemsKeywordOk additionalItemsKeywordErrors
  cases ha : lookupKey sfields "additionalItems" with
  | none => cases lookupKey sfields "items" <;> cases inst <;> simp
  | some a =>
    cases hi : lookupKey sfields "items" with
    | none => cases a <;> cases inst <;> simp
    | some itemsVal =>
      cases a with
      | obj ak afs =>
        cases itemsVal with
        | arr subs =>
          cases inst with
          | arr elems => exact addItems_iff hrec (.obj ak afs) subs.length elems 0
          | null => simp
          | bool b => simp
          | num n => simp
          | str s => simp
          | obj k2 fs2 => simp
        | null => cases inst <;> simp
        | bool b => cases inst <;> simp
        | num n => cases inst <;> simp
        | str s => cases inst <;> simp
        | obj k2 fs2 => cases inst <;> simp
      | bool b =>
        cases b with
        | false =>
          cases itemsVal with
          | arr subs =>
            cases inst with
            | arr elems =>
              by_cases hle : elems.length ≤ subs.length
              · simp [hle, Nat.not_lt.mpr hle]
              · simp [hle, Nat.lt_of_not_le hle]
            | null => simp
            | bool b2 => simp
            | num n => simp
            | str s => simp
            | obj k2 fs2 => simp
          | null => cases inst <;> simp
          | bool b2 => cases inst <;> simp
          | num n => cases inst <;> simp
          | str s => cases inst <;> simp
          | obj k2 fs2 => cases inst <;> simp
        | true => cases itemsVal <;> cases inst <;> simp
      | null => cases itemsVal <;> cases inst <;> simp
      | num n => cases itemsVal <;> cases inst <;> simp
      | str s => cases itemsVal <;> cases inst <;> simp
      | arr xs => cases itemsVal <;> cases inst <;> simp

/-- The whole keyword dispatch passes exactly when it yields no error,
given that the recursion underneath agrees. -/
theorem keywordDispatch_iff (tc : TypeChecker) {recOk : JSON → JSON → Bool}
    {rec : JSON → JSON → List VError} (hrec : ∀ s v, recOk s v = true ↔ rec s v = [])
    (sfields : List (String × JSON)) (inst : JSON) :
    keywordDispatchOk tc recOk sfields inst = true ↔
      keywordDispatchErrors tc rec sfields inst = [] := by
  unfold keywordDispatchOk keywordDispatchErrors
  simp only [Bool.and_eq_true, List.append_eq_nil, List.map_eq_nil_iff]
  rw [typeKeyword_iff tc sfields inst, requiredKeyword_iff tc sfields inst,
    propertiesKeyword_iff tc hrec sfields inst, itemsKeyword_iff hrec sfields inst,
    additionalItemsKeyword_iff hrec sfields inst]

/-- Short-circuit validity agrees with emptiness of the full error
sequence, for every fuel bound, schema and instance. -/
theorem isValid_iff_nil (tc : TypeChecker) (res : Resolver) :
    ∀ (n : Nat) (schema inst : JSON),
      isValid tc res n schema inst = true ↔ iterErrors tc res n schema inst = [] := by
  intro n
  induction n with
  | zero =>
    intro s i
    simp [isValid, iterErrors]
  | succ n ih =>
    intro s i
    cases s with
    | bool b => cases b <;> simp [isValid, iterErrors]
    | null => simp [isValid, iterErrors]
    | num m => simp [isValid, iterErrors]
    | str t => simp [isValid, iterErrors]
    | arr xs => simp [isValid, iterErrors]
    | obj k sfields =>
      simp only [isValid, iterErrors]
      cases hr : lookupKey sfields "$ref" with
      | none => exact keywordDispatch_iff tc ih sfields i
      | some j =>
        cases j with
        | str r =>
          dsimp only
          cases hres : res.resolve r with
          | error e => simp
          | ok target => simp [List.map_eq_nil_iff, ih target i]
        | null => exact keywordDispatch_iff tc ih sfields i
        | bool b => exact keywordDispatch_iff tc ih sfields i
        | num m => exact keywordDispatch_iff tc ih sfields i
        | arr xs => exact keywordDispatch_iff tc ih sfields i
        | obj k2 fs2 => exact keywordDispatch_iff tc ih sfields i

/-- Looking up the key just set returns the new child. -/
theorem lookupKey_setChild_eq (s : Seg) (t2 : ETree) (cs : List (Seg × ETree)) :
    lookupKey (setChild s t2 cs) s = some t2 := by
  induction cs with
  | nil => simp [setChild, lookupKey]
  | cons c cs ih =>
    by_cases hc : c.1 = s
    · simp [setChild, hc, lookupKey]
    · simp [setChild, hc, lookupKey, ih]

/-- Setting one child leaves lookups of other keys unchanged. -/
theorem lookupKey_setChild_ne {s q : Seg} (t2 : ETree) (cs : List (Seg × ETree))
    (h : q ≠ s) : lookupKey (setChild s t2 cs) q = lookupKey cs q := by
  induction cs with
  | nil =>
    have h2 : ¬(s = q) := fun hh => h hh.symm
    simp [setChild, lookupKey, h2]
  | cons c cs ih =>
    by_cases hc : c.1 = s
    · have h2 : ¬(s = q) := fun hh => h hh.symm
      have h3 : ¬(c.1 = q) := by
        rw [hc]
        exact h2
      simp [setChild, hc, lookupKey, h2, h3]
    · by_cases hq : c.1 = q
      · simp only [setChild, if_neg hc, lookupKey, if_pos hq]
      · simp only [setChild, if_neg hc, lookupKey, if_neg hq]
        exact ih

/-- The empty tree holds no errors (stated early for the total lemmas). -/
theorem total_empty0 : emptyTree.total = 0 :=
  rfl

/-- The summed child totals after setting one child, in additive form: the
new sum plus the displaced child total equals the old sum plus the new
child total. -/
theorem totalChildren_setChild (s : Seg) (t2 : ETree) (cs : List (Seg × ETree)) :
    totalChildren (setChild s t2 cs) + ((lookupKey cs s).getD emptyTree).total =
      totalChildren cs + t2.total := by
  induction cs with
  | nil =>
    simp [setChild, totalChildren, lookupKey, total_empty0]
  | cons c cs ih =>
    by_cases hc : c.1 = s
    · subst hc
      simp [setChild, totalChildren, lookupKey]
      omega
    · simp only [setChild, if_neg hc, totalChildren, lookupKey, if_neg hc]
      omega

/-- Inserting one error grows the tree total by exactly one. -/
theorem insertPath_total : ∀ (p : List Seg) (e : VError) (t : ETree),
    (ETree.insertPath p e t).total = t.total + 1
  | [], e, .node es cs => by
    simp only [ETree.insertPath, ETree.total, List.length_append, List.length_cons,
      List.length_nil]
    omega
  | s :: rest, e, .node es cs => by
    simp only [ETree.insertPath, ETree.total]
    have h1 := totalChildren_setChild s
      (ETree.insertPath rest e ((lookupKey cs s).getD emptyTree)) cs
    have h2 := insertPath_total rest e ((lookupKey cs s).getD emptyTree)
    omega

/-- How `childAt` changes across an insertion at a nonempty path. -/
theorem childAt_insert (t : ETree) (s2 : Seg) (p2 : List Seg) (e : VError) (s : Seg) :
    (ETree.insertPath (s2 :: p2) e t).childAt s =
      if s = s2 then ETree.insertPath p2 e (t.childAt s2) else t.childAt s := by
  cases t with
  | node es cs =>
    simp only [ETree.insertPath, ETree.childAt, ETree.children]
    by_cases hs : s = s2
    · subst hs
      rw [lookupKey_setChild_eq]
      simp
    · rw [lookupKey_setChild_ne _ _ hs]
      simp [hs]

/-- The empty tree has no children anywhere. -/
theorem childAt_empty (s : Seg) : emptyTree.childAt s = emptyTree :=
  rfl

/-- Descending through the empty tree stays empty. -/
theorem subtreeGo_empty : ∀ q : List Seg, subtreeGo q emptyTree = emptyTree
  | [] => rfl
  | s :: q => by
    rw [subtreeGo, childAt_empty]
    exact subtreeGo_empty q

/-- The empty tree holds no errors. -/
theorem total_empty : emptyTree.total = 0 :=
  rfl

/-- Inserting an error changes the total of the subtree at `q` by one
exactly when `q` is a prefix of the error path. -/
theorem subtreeGo_insert_total : ∀ (q : List Seg) (t : ETree) (p : List Seg) (e : VError),
    (subtreeGo q (ETree.insertPath p e t)).total =
      (subtreeGo q t).total + (if startsWithSegs q p = true then 1 else 0) := by
  intro q
  induction q with
  | nil =>
    intro t p e
    simp [subtreeGo, insertPath_total, startsWithSegs]
  | cons s q ih =>
    intro t p e
    cases p with
    | nil =>
      cases t with
      | node es cs =>
        simp [ETree.insertPath, subtreeGo, ETree.childAt, ETree.children, startsWithSegs]
    | cons s2 p2 =>
      rw [subtreeGo, subtreeGo, childAt_insert]
      by_cases hs : s = s2
      · rw [if_pos hs, ih]
        subst hs
        simp [startsWithSegs]
      · rw [if_neg hs]
        simp [startsWithSegs, hs]

/-- Inserting an error adds it to the root error list exactly when its path
is empty. -/
theorem rootErrors_insert (t : ETree) (p : List Seg) (e : VError) :
    (ETree.insertPath p e t).rootErrors =
      t.rootErrors ++ (if p = [] then [e] else []) := by
  cases t with
  | node es cs => cases p <;> simp [ETree.insertPath, ETree.rootErrors]

/-- Accumulated subtree totals over a fold of insertions count exactly the
errors whose path extends the prefix. -/
theorem ofErrorsAux_subtree_total : ∀ (errs : List VError) (t : ETree) (q : List Seg),
    (subtreeGo q (errs.foldl (fun t e => ETree.insertPath e.path e t) t)).total =
      (subtreeGo q t).total + (errs.filter fun e => startsWithSegs q e.path).length := by
  intro errs
  induction errs with
  | nil =>
    intro t q
    simp
  | cons e errs ih =>
    intro t q
    rw [List.foldl_cons, ih, subtreeGo_insert_total]
    by_cases hp : startsWithSegs q e.path = true
    · simp only [List.filter_cons, hp, if_pos, List.length_cons]
      omega
    · rw [List.filter_cons, if_neg hp, if_neg hp]
      omega

/-- Accumulated root errors over a fold of insertions are exactly the
errors with empty path, in order. -/
theorem ofErrorsAux_rootErrors : ∀ (errs : List VError) (t : ETree),
    (errs.foldl (fun t e => ETree.insertPath e.path e t) t).rootErrors =
      t.rootErrors ++ (errs.filter fun e => e.path.isEmpty) := by
  intro errs
  induction errs with
  | nil =>
    intro t
    simp
  | cons e errs ih =>
    intro t
    rw [List.foldl_cons, ih, rootErrors_insert]
    cases hp : e.path with
    | nil => simp [List.filter_cons, hp]
    | cons s p2 => simp [List.filter_cons, hp]

/-- A default value read out of a well-formed subschema is well-formed. -/
theorem wf_schemaDefault {sub d : JSON} (hwf : sub.wf = true)
    (h : schemaDefault sub = some d) : d.wf = true := by
  cases sub with
  | obj k fs =>
    exact wf_of_lookupKey (wf_obj_iff.mp hwf).2 h
  | null => simp [schemaDefault] at h
  | bool b => simp [schemaDefault] at h
  | num n => simp [schemaDefault] at h
  | str s => simp [schemaDefault] at h
  | arr xs => simp [schemaDefault] at h

/-- Serving properties never invents keys outside the declared list. -/
theorem lookupKey_serveFields_none {props : List (String × JSON)} {k : String}
    (rec : JSON → JSON → JSON) (ifs : List (String × JSON))
    (h : lookupKey props k = none) :
    lookupKey (serveFields rec props ifs) k = none := by
  induction props with
  | nil => simp [serveFields, lookupKey]
  | cons ps props ih =>
    simp only [lookupKey] at h
    by_cases hk : ps.1 = k
    · rw [if_pos hk] at h
      exact Option.noConfusion h
    · rw [if_neg hk] at h
      simp only [serveFields, List.filterMap_cons, serveEntry]
      cases hv : lookupKey ifs ps.1 with
      | some v => simp only [lookupKey, if_neg hk]; exact ih h
      | none =>
        cases hd : schemaDefault ps.2 with
        | some d => simp only [lookupKey, if_neg hk]; exact ih h
        | none => exact ih h

/-- What serving properties associates to a declared key: the recursively
served instance value when present, else the recursively served default,
else nothing. -/
theorem lookupKey_serveFields_mem {props : List (String × JSON)} {k : String} {sub : JSON}
    (rec : JSON → JSON → JSON) (ifs : List (String × JSON))
    (hnd : keysNodup props = true) (h : lookupKey props k = some sub) :
    lookupKey (serveFields rec props ifs) k =
      match lookupKey ifs k with
      | some v => some (rec sub v)
      | none =>
        match schemaDefault sub with
        | some d => some (rec sub d)
        | none => none := by
  induction props with
  | nil => simp [lookupKey] at h
  | cons ps props ih =>
    simp only [keysNodup, Bool.and_eq_true, Option.isNone_iff_eq_none] at hnd
    simp only [lookupKey] at h
    by_cases hk : ps.1 = k
    · rw [if_pos hk] at h
      cases h
      subst hk
      simp only [serveFields, List.filterMap_cons, serveEntry]
      cases hv : lookupKey ifs ps.1 with
      | some v => simp [lookupKey]
      | none =>
        cases hd : schemaDefault ps.2 with
        | some d => simp [lookupKey]
        | none =>
          exact lookupKey_serveFields_none rec ifs hnd.1
    · rw [if_neg hk] at h
      simp only [serveFields, List.filterMap_cons, serveEntry]
      cases hv : lookupKey ifs ps.1 with
      | some v =>
        simp only [lookupKey, if_neg hk]
        exact ih hnd.2 h
      | none =>
        cases hd : schemaDefault ps.2 with
        | some d =>
          simp only [lookupKey, if_neg hk]
          exact ih hnd.2 h
        | none => exact ih hnd.2 h

/-- Untouched fields carry exactly the instance bindings for keys the
schema does not declare. -/
theorem lookupKey_untouchedFields {props ifs : List (String × JSON)} {k : String}
    (h : lookupKey props k = none) :
    lookupKey (untouchedFields props ifs) k = lookupKey ifs k := by
  induction ifs with
  | nil => simp [untouchedFields, lookupKey]
  | cons f ifs ih =>
    simp only [untouchedFields, List.filter_cons] at ih ⊢
    by_cases hk : f.1 = k
    · subst hk
      simp only [h, Option.isNone_none, if_pos, lookupKey, if_pos rfl]
    · cases hp : (lookupKey props f.1).isNone with
      | true => simp only [hp, if_pos, lookupKey, if_neg hk]; exact ih
      | false => simp only [hp, Bool.false_eq_true, if_neg, lookupKey, if_neg hk]; exact ih

/-- Untouched fields never carry a schema-declared key. -/
theorem lookupKey_untouchedFields_none {props ifs : List (String × JSON)} {k : String}
    (h : (lookupKey props k).isSome = true) :
    lookupKey (untouchedFields props ifs) k = none := by
  induction ifs with
  | nil => simp [untouchedFields, lookupKey]
  | cons f ifs ih =>
    simp only [untouchedFields, List.filter_cons] at ih ⊢
    by_cases hk : f.1 = k
    · subst hk
      rw [Option.isSome_iff_exists] at h
      obtain ⟨v, hv⟩ := h
      simp only [hv, Option.isNone_some, Bool.false_eq_true, if_neg]
      exact ih
    · cases hp : (lookupKey props f.1).isNone with
      | true => simp only [hp, if_pos, lookupKey, if_neg hk]; exact ih
      | false => simp only [hp, Bool.false_eq_true, if_neg, lookupKey, if_neg hk]; exact ih

/-- Every served field comes from a declared property, with its value the
recursively served instance value or default. -/
theorem mem_serveFields {rec : JSON → JSON → JSON} {props ifs : List (String × JSON)}
    {g : String × JSON} (h : g ∈ serveFields rec props ifs) :
    ∃ sub, (g.1, sub) ∈ props ∧
      ((∃ v, lookupKey ifs g.1 = some v ∧ g.2 = rec sub v) ∨
       (lookupKey ifs g.1 = none ∧ ∃ d, schemaDefault sub = some d ∧ g.2 = rec sub d)) := by
  induction props with
  | nil => simp [serveFields] at h
  | cons ps props ih =>
    simp only [serveFields, List.filterMap_cons, serveEntry] at h
    cases hv : lookupKey ifs ps.1 with
    | some v =>
      rw [hv] at h
      rcases List.mem_cons.mp h with h1 | h2
      · subst h1
        exact ⟨ps.2, List.mem_cons_self _ _, Or.inl ⟨v, hv, rfl⟩⟩
      · obtain ⟨sub, hmem, hrest⟩ := ih h2
        exact ⟨sub, List.mem_cons_of_mem _ hmem, hrest⟩
    | none =>
      rw [hv] at h
      cases hd : schemaDefault ps.2 with
      | some d =>
        rw [hd] at h
        rcases List.mem_cons.mp h with h1 | h2
        · subst h1
          exact ⟨ps.2, List.mem_cons_self _ _, Or.inr ⟨hv, d, hd, rfl⟩⟩
        · obtain ⟨sub, hmem, hrest⟩ := ih h2
          exact ⟨sub, List.mem_cons_of_mem _ hmem, hrest⟩
      | none =>
        rw [hd] at h
        obtain ⟨sub, hmem, hrest⟩ := ih h
        exact ⟨sub, List.mem_cons_of_mem _ hmem, hrest⟩

/-- Every untouched field is an instance field whose key the schema does
not declare. -/
theorem mem_untouchedFields {props ifs : List (String × JSON)} {g : String × JSON}
    (h : g ∈ untouchedFields props ifs) :
    g ∈ ifs ∧ lookupKey props g.1 = none := by
  have := List.mem_filter.mp h
  exact ⟨this.1, Option.isNone_iff_eq_none.mp (by simpa using this.2)⟩

/-- The subschema applying at an array index of a well-formed schema object
is well-formed. -/
theorem wf_arrayItemSchema {sfields : List (String × JSON)} {j : Nat} {sub : JSON}
    (hwf : wfFields sfields = true) (h : arrayItemSchema sfields j = some sub) :
    sub.wf = true := by
  unfold arrayItemSchema at h
  cases hi : lookupKey sfields "items" with
  | none => rw [hi] at h; exact Option.noConfusion h
  | some itemsVal =>
    rw [hi] at h
    have hiw := wf_of_lookupKey hwf hi
    cases itemsVal with
    | arr subs =>
      dsimp only at h
      cases hj : subs[j]? with
      | some s2 =>
        rw [hj] at h
        cases h
        exact wfList_iff.mp (by simpa [JSON.wf] using hiw) _ (List.getElem?_mem hj)
      | none =>
        rw [hj] at h
        dsimp only at h
        cases ha : lookupKey sfields "additionalItems" with
        | none => rw [ha] at h; exact Option.noConfusion h
        | some aI =>
          rw [ha] at h
          cases aI with
          | obj ak afs =>
            cases h
            exact wf_of_lookupKey hwf ha
          | null => exact Option.noConfusion h
          | bool b => exact Option.noConfusion h
          | num n => exact Option.noConfusion h
          | str s => exact Option.noConfusion h
          | arr xs => exact Option.noConfusion h
    | null => cases h; exact hiw
    | bool b => cases h; exact hiw
    | num n => cases h; exact hiw
    | str s => cases h; exact hiw
    | obj k2 fs2 => cases h; exact hiw

/-- Serving array elements pointwise satisfies the pointwise
only-defaults-added check, given that the recursion underneath does. -/
theorem itemsOnlyDefaults_serveItems {rel : JSON → JSON → JSON → Bool}
    {rec : JSON → JSON → JSON} {sfields : List (String × JSON)}
    (hwf : wfFields sfields = true)
    (hrel : ∀ sub e, sub.wf = true → e.wf = true → rel sub e (rec sub e) = true) :
    ∀ (es : List JSON) (j : Nat), wfList es = true →
      itemsOnlyDefaults rel sfields j es (serveItems rec sfields j es) = true := by
  intro es
  induction es with
  | nil =>
    intro j _
    rfl
  | cons e es ih =>
    intro j he
    rw [wfList_iff] at he
    simp only [serveItems, itemsOnlyDefaults, Bool.and_eq_true]
    constructor
    · cases hs : arrayItemSchema sfields j with
      | some sub => exact hrel sub e (wf_arrayItemSchema hwf hs) (he e (List.mem_cons_self _ _))
      | none => exact beq_self e
    · exact ih (j + 1) (wfList_iff.mpr fun x hx => he x (List.mem_cons_of_mem _ hx))

/-- One dispatch level of the serializer satisfies one dispatch level of
the declarative only-defaults-added check, given that the recursion
underneath does. -/
theorem onlyDefaultsDispatch_serializeDispatch (tc : TypeChecker)
    {rel : JSON → JSON → JSON → Bool} {rec : JSON → JSON → JSON}
    (hrel : ∀ sub e, sub.wf = true → e.wf = true → rel sub e (rec sub e) = true)
    (sfields : List (String × JSON)) (i : JSON)
    (hsf : wfFields sfields = true) (hi : i.wf = true) :
    onlyDefaultsDispatch tc rel sfields i (serializeDispatch tc rec sfields i) = true := by
  unfold onlyDefaultsDispatch serializeDispatch
  cases i with
  | obj ki ifs =>
    obtain ⟨hndi, hwfi⟩ := wf_obj_iff.mp hi
    cases hp : lookupKey sfields "properties" with
    | none => exact beq_self _
    | some pj =>
      cases pj with
      | obj pk props =>
        obtain ⟨hndp, hwfp⟩ := wf_obj_iff.mp (wf_of_lookupKey hsf hp)
        dsimp only
        by_cases hki : tc.objectKinds.contains ki = true
        · rw [if_pos hki, if_pos hki]
          dsimp only
          rw [Bool.and_eq_true, List.all_eq_true, List.all_eq_true]
          constructor
          · intro f hf
            cases hpf : lookupKey props f.1 with
            | some sub =>
              have hif : lookupKey ifs f.1 = some f.2 := lookupKey_of_mem_nodup hndi hf
              have hserve := lookupKey_serveFields_mem rec ifs hndp hpf
              rw [hif] at hserve
              rw [lookupKey_append_of_some _ hserve]
              exact hrel sub f.2 (wf_of_lookupKey hwfp hpf) (wfFields_iff.mp hwfi f hf)
            | none =>
              have hif : lookupKey ifs f.1 = some f.2 := lookupKey_of_mem_nodup hndi hf
              rw [lookupKey_append_of_none _ (lookupKey_serveFields_none rec ifs hpf),
                lookupKey_untouchedFields hpf, hif]
              exact beq_self f.2
          · intro g hg
            rcases List.mem_append.mp hg with hgs | hgu
            · obtain ⟨sub, hmem, hval⟩ := mem_serveFields hgs
              rcases hval with ⟨v, hv, hval⟩ | ⟨hvnone, d, hd, hval⟩
              · simp [hv]
              · rw [hvnone, lookupKey_of_mem_nodup hndp hmem]
                dsimp only
                rw [hd]
                dsimp only
                rw [hval]
                simp only [Option.isSome_none, Bool.false_or]
                exact hrel sub d (wf_of_lookupKey hwfp (lookupKey_of_mem_nodup hndp hmem))
                  (wf_schemaDefault (wf_of_lookupKey hwfp (lookupKey_of_mem_nodup hndp hmem)) hd)
            · obtain ⟨hgifs, _⟩ := mem_untouchedFields hgu
              simp [lookupKey_isSome_of_mem hgifs]
        · rw [if_neg hki, if_neg hki]
          exact beq_self _
      | null => exact beq_self _
      | bool b => exact beq_self _
      | num n => exact beq_self _
      | str s => exact beq_self _
      | arr xs => exact beq_self _
  | arr elems =>
    cases hit : lookupKey sfields "items" with
    | none => exact beq_self _
    | some itemsVal =>
      dsimp only
      exact itemsOnlyDefaults_serveItems hsf hrel elems 0 (by simpa [JSON.wf] using hi)
  | null => exact beq_self _
  | bool b => exact beq_self _
  | num n => exact beq_self _
  | str s => exact beq_self _

/-- The serializer only adds defaults: its transformed output satisfies the
declarative only-defaults-added check at every fuel bound, for well-formed
schema, instance and resolver store. -/
theorem applyDefaults_only_adds (tc : TypeChecker) (res : Resolver)
    (hres : res.storeWf = true) :
    ∀ (n : Nat) (s i : JSON), s.wf = true → i.wf = true →
      onlyDefaultsAdded tc res n s i (applyDefaults tc res n s i) = true := by
  intro n
  induction n with
  | zero =>
    intro s i hs hi
    exact beq_self i
  | succ n ih =>
    intro s i hs hi
    cases s with
    | obj sk sfields =>
      simp only [applyDefaults, onlyDefaultsAdded]
      cases hr : lookupKey sfields "$ref" with
      | none =>
        exact onlyDefaultsDispatch_serializeDispatch tc
          (fun sub e hsub he => ih sub e hsub he) sfields i (wf_obj_iff.mp hs).2 hi
      | some j =>
        cases j with
        | str r =>
          dsimp only
          cases hrr : res.resolve r with
          | ok target => exact ih target i (wf_of_resolve hres hrr) hi
          | error e => exact beq_self i
        | null =>
          exact onlyDefaultsDispatch_serializeDispatch tc
            (fun sub e hsub he => ih sub e hsub he) sfields i (wf_obj_iff.mp hs).2 hi
        | bool b =>
          exact onlyDefaultsDispatch_serializeDispatch tc
            (fun sub e hsub he => ih sub e hsub he) sfields i (wf_obj_iff.mp hs).2 hi
        | num m =>
          exact onlyDefaultsDispatch_serializeDispatch tc
            (fun sub e hsub he => ih sub e hsub he) sfields i (wf_obj_iff.mp hs).2 hi
        | arr xs =>
          exact onlyDefaultsDispatch_serializeDispatch tc
            (fun sub e hsub he => ih sub e hsub he) sfields i (wf_obj_iff.mp hs).2 hi
        | obj k2 fs2 =>
          exact onlyDefaultsDispatch_serializeDispatch tc
            (fun sub e hsub he => ih sub e hsub he) sfields i (wf_obj_iff.mp hs).2 hi
    | null => exact beq_self i
    | bool b => exact beq_self i
    | num m => exact beq_self i
    | str t => exact beq_self i
    | arr xs => exact beq_self i

/-- A list containing some element also contains its own head (with the
default standing in for the head of an empty list, where containment of
anything is impossible). -/
theorem contains_headD {l : List ObjKind} {k : ObjKind} (h : l.contains k = true) :
    l.contains (l.headD .unordered) = true := by
  cases l with
  | nil => simp at h
  | cons a t => simp

/-- A Type Checker accepting some representation accepts its own preferred
representation. -/
theorem contains_preferred {tc : TypeChecker} {ki : ObjKind}
    (h : tc.objectKinds.contains ki = true) :
    tc.objectKinds.contains tc.preferredObjectKind = true :=
  contains_headD h

/-- Serving array elements is idempotent, given that the recursion
underneath is. -/
theorem serveItems_idem {rec : JSON → JSON → JSON} {sfields : List (String × JSON)}
    (hwf : wfFields sfields = true)
    (hrec : ∀ sub e, sub.wf = true → e.wf = true → rec sub (rec sub e) = rec sub e) :
    ∀ (es : List JSON) (j : Nat), wfList es = true →
      serveItems rec sfields j (serveItems rec sfields j es) = serveItems rec sfields j es := by
  intro es
  induction es with
  | nil =>
    intro j _
    rfl
  | cons e es ih =>
    intro j he
    rw [wfList_iff] at he
    simp only [serveItems]
    congr 1
    · cases hs : arrayItemSchema sfields j with
      | some sub =>
        exact hrec sub e (wf_arrayItemSchema hwf hs) (he e (List.mem_cons_self _ _))
      | none => rfl
    · exact ih (j + 1) (wfList_iff.mpr fun x hx => he x (List.mem_cons_of_mem _ hx))

/-- Re-serving declared properties against an already-served object changes
nothing, given that the recursion underneath is idempotent. -/
theorem serveEntry_reserve {rec : JSON → JSON → JSON} {props ifs : List (String × JSON)}
    (hndp : keysNodup props = true) (hwfp : wfFields props = true)
    (hwfi : wfFields ifs = true)
    (hrec : ∀ sub e, sub.wf = true → e.wf = true → rec sub (rec sub e) = rec sub e)
    (ps : String × JSON) (hps : ps ∈ props) :
    serveEntry rec (serveFields rec props ifs ++ untouchedFields props ifs) ps =
      serveEntry rec ifs ps := by
  have hpp : lookupKey props ps.1 = some ps.2 := lookupKey_of_mem_nodup hndp hps
  have hsubw : ps.2.wf = true := wfFields_iff.mp hwfp ps hps
  unfold serveEntry
  cases hv : lookupKey ifs ps.1 with
  | some v =>
    have h1 : lookupKey (serveFields rec props ifs) ps.1 = some (rec ps.2 v) := by
      rw [lookupKey_serveFields_mem rec ifs hndp hpp, hv]
    rw [lookupKey_append_of_some _ h1]
    dsimp only
    rw [hrec ps.2 v hsubw (wf_of_lookupKey hwfi hv)]
  | none =>
    cases hd : schemaDefault ps.2 with
    | some d =>
      have h1 : lookupKey (serveFields rec props ifs) ps.1 = some (rec ps.2 d) := by
        rw [lookupKey_serveFields_mem rec ifs hndp hpp, hv, hd]
      rw [lookupKey_append_of_some _ h1]
      dsimp only
      rw [hrec ps.2 d hsubw (wf_schemaDefault hsubw hd)]
    | none =>
      have h1 : lookupKey (serveFields rec props ifs) ps.1 = none := by
        rw [lookupKey_serveFields_mem rec ifs hndp hpp, hv, hd]
      have h2 : lookupKey (untouchedFields props ifs) ps.1 = none :=
        lookupKey_untouchedFields_none (by rw [hpp]; rfl)
      rw [lookupKey_append_of_none _ h1, h2]

/-- Re-serving declared properties against an already-served object changes
nothing, given that the recursion underneath is idempotent. -/
theorem serveFields_reserve {rec : JSON → JSON → JSON} {props ifs : List (String × JSON)}
    (hndp : keysNodup props = true) (hwfp : wfFields props = true)
    (hwfi : wfFields ifs = true)
    (hrec : ∀ sub e, sub.wf = true → e.wf = true → rec sub (rec sub e) = rec sub e) :
    serveFields rec props (serveFields rec props ifs ++ untouchedFields props ifs) =
      serveFields rec props ifs := by
  exact List.filterMap_congr fun ps hps => serveEntry_reserve hndp hwfp hwfi hrec ps hps

/-- The untouched fields of an already-served object are exactly the
original untouched fields. -/
theorem untouchedFields_reserve {rec : JSON → JSON → JSON}
    {props ifs : List (String × JSON)} :
    untouchedFields props (serveFields rec props ifs ++ untouchedFields props ifs) =
      untouchedFields props ifs := by
  show (serveFields rec props ifs ++ untouchedFields props ifs).filter _ =
    untouchedFields props ifs
  rw [List.filter_append]
  have h1 : (serveFields rec props ifs).filter
      (fun f => (lookupKey props f.1).isNone) = [] := by
    apply List.filter_eq_nil_iff.mpr
    intro g hg
    obtain ⟨sub, hmem, _⟩ := mem_serveFields hg
    have := lookupKey_isSome_of_mem hmem
    simp only [Option.isNone_iff_eq_none]
    intro hnone
    rw [hnone] at this
    exact Bool.noConfusion this
  have h2 : (untouchedFields props ifs).filter
      (fun f => (lookupKey props f.1).isNone) = untouchedFields props ifs := by
    apply List.filter_eq_self.mpr
    intro g hg
    rw [(mem_untouchedFields hg).2]
    rfl
  rw [h1, h2, List.nil_append]

/-- One dispatch level of the serializer is idempotent, given that the
recursion underneath is. -/
theorem serializeDispatch_idem (tc : TypeChecker) {rec : JSON → JSON → JSON}
    (sfields : List (String × JSON)) (i : JSON)
    (hsf : wfFields sfields = true) (hi : i.wf = true)
    (hrec : ∀ sub e, sub.wf = true → e.wf = true → rec sub (rec sub e) = rec sub e) :
    serializeDispatch tc rec sfields (serializeDispatch tc rec sfields i) =
      serializeDispatch tc rec sfields i := by
  cases i with
  | obj ki ifs =>
    obtain ⟨hndi, hwfi⟩ := wf_obj_iff.mp hi
    cases hp : lookupKey sfields "properties" with
    | none =>
      have hinner : serializeDispatch tc rec sfields (JSON.obj ki ifs) = JSON.obj ki ifs := by
        unfold serializeDispatch
        rw [hp]
      rw [hinner]
      exact hinner
    | some pj =>
      cases pj with
      | obj pk props =>
        obtain ⟨hndp, hwfp⟩ := wf_obj_iff.mp (wf_of_lookupKey hsf hp)
        by_cases hki : tc.objectKinds.contains ki = true
        · have hinner : serializeDispatch tc rec sfields (JSON.obj ki ifs) =
              JSON.obj tc.preferredObjectKind
                (serveFields rec props ifs ++ untouchedFields props ifs) := by
            unfold serializeDispatch
            rw [hp]
            dsimp only
            rw [if_pos hki]
          rw [hinner]
          unfold serializeDispatch
          rw [hp]
          dsimp only
          rw [if_pos (contains_preferred hki)]
          rw [serveFields_reserve hndp hwfp hwfi hrec, untouchedFields_reserve]
        · have hinner : serializeDispatch tc rec sfields (JSON.obj ki ifs) =
              JSON.obj ki ifs := by
            unfold serializeDispatch
            rw [hp]
            dsimp only
            rw [if_neg hki]
          rw [hinner]
          exact hinner
      | null =>
        have hinner : serializeDispatch tc rec sfields (JSON.obj ki ifs) = JSON.obj ki ifs := by
          unfold serializeDispatch
          rw [hp]
        rw [hinner]
        exact hinner
      | bool b =>
        have hinner : serializeDispatch tc rec sfields (JSON.obj ki ifs) = JSON.obj ki ifs := by
          unfold serializeDispatch
          rw [hp]
        rw [hinner]
        exact hinner
      | num m =>
        have hinner : serializeDispatch tc rec sfields (JSON.obj ki ifs) = JSON.obj ki ifs := by
          unfold serializeDispatch
          rw [hp]
        rw [hinner]
        exact hinner
      | str t =>
        have hinner : serializeDispatch tc rec sfields (JSON.obj ki ifs) = JSON.obj ki ifs := by
          unfold serializeDispatch
          rw [hp]
        rw [hinner]
        exact hinner
      | arr xs =>
        have hinner : serializeDispatch tc rec sfields (JSON.obj ki ifs) = JSON.obj ki ifs := by
          unfold serializeDispatch
          rw [hp]
        rw [hinner]
        exact hinner
  | arr elems =>
    cases hit : lookupKey sfields "items" with
    | none =>
      have hinner : serializeDispatch tc rec sfields (JSON.arr elems) = JSON.arr elems := by
        unfold serializeDispatch
        rw [hit]
      rw [hinner]
      exact hinner
    | some itemsVal =>
      have hinner : serializeDispatch tc rec sfields (JSON.arr elems) =
          JSON.arr (serveItems rec sfields 0 elems) := by
        unfold serializeDispatch
        rw [hit]
      rw [hinner]
      unfold serializeDispatch
      rw [hit]
      dsimp only
      rw [serveItems_idem hsf hrec elems 0 (by simpa [JSON.wf] using hi)]
  | null => rfl
  | bool b => rfl
  | num m => rfl
  | str t => rfl

/-- The serializer transformation is idempotent at every fuel bound, for
well-formed schema, instance and resolver store: applying defaults a second
time is a no-op. -/
theorem applyDefaults_idem (tc : TypeChecker) (res : Resolver) (hres : res.storeWf = true) :
    ∀ (n : Nat) (s i : JSON), s.wf = true → i.wf = true →
      applyDefaults tc res n s (applyDefaults tc res n s i) = applyDefaults tc res n s i := by
  intro n
  induction n with
  | zero =>
    intro s i _ _
    rfl
  | succ n ih =>
    intro s i hs hi
    cases s with
    | obj sk sfields =>
      simp only [applyDefaults]
      cases hr : lookupKey sfields "$ref" with
      | none =>
        exact serializeDispatch_idem tc sfields i (wf_obj_iff.mp hs).2 hi
          (fun sub e hsub he => ih sub e hsub he)
      | some j =>
        cases j with
        | str r =>
          dsimp only
          cases hrr : res.resolve r with
          | ok target => exact ih target i (wf_of_resolve hres hrr) hi
          | error e => rfl
        | null =>
          exact serializeDispatch_idem tc sfields i (wf_obj_iff.mp hs).2 hi
            (fun sub e hsub he => ih sub e hsub he)
        | bool b =>
          exact serializeDispatch_idem tc sfields i (wf_obj_iff.mp hs).2 hi
            (fun sub e hsub he => ih sub e hsub he)
        | num m =>
          exact serializeDispatch_idem tc sfields i (wf_obj_iff.mp hs).2 hi
            (fun sub e hsub he => ih sub e hsub he)
        | arr xs =>
          exact serializeDispatch_idem tc sfields i (wf_obj_iff.mp hs).2 hi
            (fun sub e hsub he => ih sub e hsub he)
        | obj k2 fs2 =>
          exact serializeDispatch_idem tc sfields i (wf_obj_iff.mp hs).2 hi
            (fun sub e hsub he => ih sub e hsub he)
    | null => rfl
    | bool b => rfl
    | num m => rfl
    | str t => rfl
    | arr xs => rfl

/-- The keys of the served declared properties: the declared names, in
schema declaration order, keeping exactly those with an instance value or a
default. -/
theorem serveFields_keys (rec : JSON → JSON → JSON) (props ifs : List (String × JSON)) :
    (serveFields rec props ifs).map Prod.fst =
      props.filterMap fun ps =>
        if (lookupKey ifs ps.1).isSome || (schemaDefault ps.2).isSome then some ps.1
        else none := by
  unfold serveFields
  rw [List.map_filterMap]
  apply List.filterMap_congr
  intro ps _
  unfold serveEntry
  cases hv : lookupKey ifs ps.1 with
  | some v => simp
  | none =>
    cases hd : schemaDefault ps.2 with
    | some d => simp
    | none => simp

/-- The keys of the untouched fields: the instance keys the schema does not
declare, in their original relative order. -/
theorem untouchedFields_keys (props ifs : List (String × JSON)) :
    (untouchedFields props ifs).map Prod.fst =
      (ifs.map Prod.fst).filter fun q => (lookupKey props q).isNone := by
  induction ifs with
  | nil => rfl
  | cons f ifs ih =>
    show ((f :: ifs).filter _).map Prod.fst = _
    rw [List.filter_cons, List.map_cons, List.filter_cons]
    cases hp : (lookupKey props f.1).isNone with
    | true =>
      simp only [hp, if_pos, List.map_cons]
      exact congrArg (List.cons f.1) ih
    | false => simp only [hp, Bool.false_eq_true, if_neg]; exact ih

/-- C1: for every schema S and instance I (and every fuel bound and
configuration), `is_valid(I)` returns true if and only if `iter_errors(I)`
produces an empty sequence of ValidationErrors. -/
theorem c1_is_valid_iff_iter_errors_empty (tc : TypeChecker) (res : Resolver)
    (n : Nat) (schema inst : JSON) :
    isValid tc res n schema inst = true ↔ iterErrors tc res n schema inst = [] :=
  isValid_iff_nil tc res n schema inst

/-- C2 counterexample: the module-level `serialize` convenience entry point
does raise for a pure validation failure — on schema `{"type":"string"}`
and instance `5` it raises the `type` ValidationError (whose `cause` is
none: no resolver or system fault is involved), contradicting the claim
that serialize never raises for validation failures. -/
theorem c2_counterexample_module_serialize_raises :
    moduleSerialize defaultTypeChecker emptyResolver 5 typeStringSchema (JSON.num 5) =
      Except.error ((mkErr "instance is not of the declared type" "type").inKeyword "type") ∧
    ((mkErr "instance is not of the declared type" "type").inKeyword "type").validator = "type" ∧
    ((mkErr "instance is not of the declared type" "type").inKeyword "type").cause = none :=
  ⟨rfl, rfl, rfl⟩

/-- C2 (amended): validation errors met during the mirrored traversal are
collected into `Core.serialize`'s returned error sequence and never raised
there; the module-level `serialize` wrapper returns the bare transformed
instance exactly when the instance is valid and otherwise raises the first
collected ValidationError. -/
theorem c2_amended_core_collects_module_raises_first (tc : TypeChecker) (res : Resolver)
    (n : Nat) (schema inst : JSON) :
    (coreSerialize tc res n schema inst).2 = iterErrors tc res n schema inst ∧
    (isError (moduleSerialize tc res n schema inst) = false ↔
      isValid tc res n schema inst = true) ∧
    (∀ e, moduleSerialize tc res n schema inst = Except.error e →
      (iterErrors tc res n schema inst).head? = some e) := by
  refine ⟨rfl, ?_, ?_⟩
  · rw [isValid_iff_nil]
    unfold moduleSerialize coreSerialize isError
    cases h : iterErrors tc res n schema inst with
    | nil => simp
    | cons e es => simp
  · intro e he
    unfold moduleSerialize coreSerialize at he
    cases h : iterErrors tc res n schema inst with
    | nil =>
      rw [h] at he
      exact Except.noConfusion he
    | cons e2 es =>
      rw [h] at he
      cases he
      rfl

/-- C2 witness: the amended theorem applied at the concrete invalid input,
its inner hypothesis discharged definitionally. -/
theorem c2_amended_witness :
    (iterErrors defaultTypeChecker emptyResolver 5 typeStringSchema (JSON.num 5)).head? =
      some ((mkErr "instance is not of the declared type" "type").inKeyword "type") :=
  (c2_amended_core_collects_module_raises_first defaultTypeChecker emptyResolver 5
    typeStringSchema (JSON.num 5)).2.2 _ rfl

/-- C3: when validation succeeds, `serialize` returns an empty error
sequence and a transformed instance that deep-equals the input with only
schema-declared defaulted properties added (the declarative
only-defaults-added check), for well-formed schema, instance and resolver
store. -/
theorem c3_valid_serialize_only_adds_defaults (tc : TypeChecker) (res : Resolver)
    (n : Nat) (schema inst : JSON) (hres : res.storeWf = true)
    (hs : schema.wf = true) (hi : inst.wf = true)
    (hvalid : iterErrors tc res n schema inst = []) :
    (coreSerialize tc res n schema inst).2 = [] ∧
    onlyDefaultsAdded tc res n schema inst (coreSerialize tc res n schema inst).1 = true :=
  ⟨hvalid, applyDefaults_only_adds tc res hres n schema inst hs hi⟩

/-- C3 witness: the theorem applied at the default-filling scenario, all
hypotheses discharged definitionally. -/
theorem c3_witness :
    (emptyResolver.storeWf = true ∧ propFooDefaultSchema.wf = true ∧
      emptyObj.wf = true ∧
      iterErrors defaultTypeChecker emptyResolver 3 propFooDefaultSchema emptyObj = []) ∧
    ((coreSerialize defaultTypeChecker emptyResolver 3 propFooDefaultSchema emptyObj).2 = [] ∧
     onlyDefaultsAdded defaultTypeChecker emptyResolver 3 propFooDefaultSchema emptyObj
       (coreSerialize defaultTypeChecker emptyResolver 3 propFooDefaultSchema emptyObj).1 =
       true) :=
  ⟨⟨rfl, rfl, rfl, rfl⟩,
   c3_valid_serialize_only_adds_defaults defaultTypeChecker emptyResolver 3
     propFooDefaultSchema emptyObj rfl rfl rfl rfl⟩

/-- C4 counterexample: serializing the transformed output does not yield
the same full result — on the schema requiring `foo` while also declaring a
default for it, the first pass over `{}` reports the `required` error while
the second pass over the filled output reports none, so the error
components differ. -/
theorem c4_counterexample_full_results_differ :
    coreSerialize defaultTypeChecker emptyResolver 5 requiredFooSchema
        ((coreSerialize defaultTypeChecker emptyResolver 5 requiredFooSchema emptyObj).1) ≠
      coreSerialize defaultTypeChecker emptyResolver 5 requiredFooSchema emptyObj := by
  intro h
  exact absurd (congrArg Prod.snd h) (by decide)

/-- C4 (amended): the transformed-output component of serialization is
idempotent — serializing the transformed output of `serialize(I)` yields
the same transformed output, applying defaults a second time being a
no-op — while the collected error components may differ (the first pass
reports errors of the original instance). -/
theorem c4_amended_output_idempotent (tc : TypeChecker) (res : Resolver)
    (n : Nat) (schema inst : JSON) (hres : res.storeWf = true)
    (hs : schema.wf = true) (hi : inst.wf = true) :
    (coreSerialize tc res n schema
        ((coreSerialize tc res n schema inst).1)).1 =
      (coreSerialize tc res n schema inst).1 :=
  applyDefaults_idem tc res hres n schema inst hs hi

/-- C4 witness: the amended theorem applied at the counterexample inputs,
all hypotheses discharged definitionally. -/
theorem c4_amended_witness :
    (emptyResolver.storeWf = true ∧ requiredFooSchema.wf = true ∧ emptyObj.wf = true) ∧
    (coreSerialize defaultTypeChecker emptyResolver 5 requiredFooSchema
        ((coreSerialize defaultTypeChecker emptyResolver 5 requiredFooSchema emptyObj).1)).1 =
      (coreSerialize defaultTypeChecker emptyResolver 5 requiredFooSchema emptyObj).1 :=
  ⟨⟨rfl, rfl, rfl⟩,
   c4_amended_output_idempotent defaultTypeChecker emptyResolver 5 requiredFooSchema
     emptyObj rfl rfl rfl⟩

/-- C5: serializing `{}` against `{"properties":{"foo":{"default":"bar"}}}`
produces `{"foo":"bar"}` with no errors; serializing `{"foo":"baz"}`
produces the unchanged input with no errors; and the same default filling
applies per array element when the properties subschema sits under
`items`. -/
theorem c5_default_serialization_scenarios :
    coreSerialize defaultTypeChecker emptyResolver 3 propFooDefaultSchema emptyObj =
      (.obj .unordered [("foo", .str "bar")], []) ∧
    coreSerialize defaultTypeChecker emptyResolver 3 propFooDefaultSchema fooBazObj =
      (fooBazObj, []) ∧
    coreSerialize defaultTypeChecker emptyResolver 3 itemsFooDefaultSchema
        (.arr [emptyObj]) =
      (.arr [.obj .unordered [("foo", .str "bar")]], []) :=
  ⟨rfl, rfl, rfl⟩

/-- C6: serializing an object instance against a (`$ref`-free) schema with
declared properties produces an object in the Type Checker preferred
representation — whatever the representation of the input — whose key order
is the schema declared properties order first (keeping those with an
instance value or a default), then the instance-original keys not
mentioned in the schema, in their original relative order. -/
theorem c6_output_preferred_representation_and_order (tc : TypeChecker) (res : Resolver)
    (n : Nat) (sk ki pk : ObjKind) (sfields props ifs : List (String × JSON))
    (href : lookupKey sfields "$ref" = none)
    (hprops : lookupKey sfields "properties" = some (.obj pk props))
    (hki : tc.objectKinds.contains ki = true) :
    ∃ ofs, applyDefaults tc res (n + 1) (.obj sk sfields) (.obj ki ifs) =
        .obj tc.preferredObjectKind ofs ∧
      ofs.map Prod.fst =
        (props.filterMap fun ps =>
          if (lookupKey ifs ps.1).isSome || (schemaDefault ps.2).isSome then some ps.1
          else none) ++
        ((ifs.map Prod.fst).filter fun q => (lookupKey props q).isNone) := by
  refine ⟨serveFields (applyDefaults tc res n) props ifs ++ untouchedFields props ifs,
    ?_, ?_⟩
  · simp only [applyDefaults]
    rw [href]
    unfold serializeDispatch
    rw [hprops]
    dsimp only
    rw [if_pos hki]
  · rw [List.map_append, serveFields_keys, untouchedFields_keys]

/-- C6 witness: the theorem applied at the ordering test scenario — the
plain unordered instance `{"bar":1,"foo":2}` serialized against declared
properties `foo`, `bar` with an order-preferring Type Checker comes out in
the order-preserving representation with keys `foo`, `bar`. -/
theorem c6_witness :
    (lookupKey [("properties",
        JSON.obj .unordered [("foo", emptyObj), ("bar", emptyObj)])] "$ref" = none ∧
     lookupKey [("properties",
        JSON.obj .unordered [("foo", emptyObj), ("bar", emptyObj)])] "properties" =
       some (.obj .unordered [("foo", emptyObj), ("bar", emptyObj)]) ∧
     orderedPreferringChecker.objectKinds.contains ObjKind.unordered = true) ∧
    (∃ ofs, applyDefaults orderedPreferringChecker emptyResolver 3 orderSchema barFooObj =
        .obj ObjKind.ordered ofs ∧ ofs.map Prod.fst = ["foo", "bar"]) := by
  refine ⟨⟨rfl, rfl, rfl⟩, ?_⟩
  obtain ⟨ofs, h1, h2⟩ := c6_output_preferred_representation_and_order
    orderedPreferringChecker emptyResolver 2 .unordered .unordered .unordered
    [("properties", JSON.obj .unordered [("foo", emptyObj), ("bar", emptyObj)])]
    [("foo", emptyObj), ("bar", emptyObj)] [("bar", .num 1), ("foo", .num 2)]
    rfl rfl rfl
  exact ⟨ofs, h1, h2.trans rfl⟩

/-- C7: for every error sequence inserted into an ErrorTree, the subtree at
any path prefix `p` holds exactly the errors whose path starts with `p`
(its total is their count, the total over the tree being the sum over
nodes), errors with an empty path sit on the tree own error list rather
than nested; in particular errors at paths `a`, `a.b`, `c` group into the
two top-level keys `a` (2 errors in its subtree) and `c` (1 error). -/
theorem c7_error_tree_grouping :
    (∀ (errs : List VError) (p : List Seg),
        ((ETree.ofErrors errs).subtreeAt p).total =
          (errs.filter fun e => startsWithSegs p e.path).length) ∧
    (∀ errs : List VError,
        (ETree.ofErrors errs).rootErrors = errs.filter fun e => e.path.isEmpty) ∧
    (ETree.ofErrors [errA, errAB, errC]).childKeys = [.key "a", .key "c"] ∧
    ((ETree.ofErrors [errA, errAB, errC]).subtreeAt [.key "a"]).total = 2 ∧
    ((ETree.ofErrors [errA, errAB, errC]).subtreeAt [.key "c"]).total = 1 := by
  refine ⟨?_, ?_, rfl, rfl, rfl⟩
  · intro errs p
    show (subtreeGo p (errs.foldl (fun t e => ETree.insertPath e.path e t) emptyTree)).total = _
    rw [ofErrorsAux_subtree_total errs emptyTree p, subtreeGo_empty p, total_empty]
    exact Nat.zero_add _
  · intro errs
    show (errs.foldl (fun t e => ETree.insertPath e.path e t) emptyTree).rootErrors = _
    rw [ofErrorsAux_rootErrors errs emptyTree]
    exact List.nil_append _

/-- C8: `validate(instance)` raises exactly the first error found in
keyword-dispatch order, and raises exactly when `is_valid(instance)` is
false, returning without raising when the instance is valid. -/
theorem c8_validate_first_error_iff_invalid (tc : TypeChecker) (res : Resolver)
    (n : Nat) (schema inst : JSON) :
    modelValidate tc res n schema inst = (iterErrors tc res n schema inst).head? ∧
    (modelValidate tc res n schema inst = none ↔ isValid tc res n schema inst = true) := by
  refine ⟨rfl, ?_⟩
  rw [isValid_iff_nil tc res n schema inst]
  unfold modelValidate
  exact List.head?_eq_none_iff

/-- C9: a `$ref` whose resolution fails surfaces during `iter_errors` as a
single ValidationError whose `cause` is the resolver's RefResolutionError,
rather than a crash or a raw resolver exception; standalone resolution
(the hypothesis) returns the raised RefResolutionError directly. -/
theorem c9_ref_failure_wrapped (tc : TypeChecker) (res : Resolver) (n : Nat)
    (sk : ObjKind) (sfields : List (String × JSON)) (inst : JSON) (r : String)
    (e : RefResolutionError)
    (href : lookupKey sfields "$ref" = some (.str r))
    (hres : res.resolve r = .error e) :
    iterErrors tc res (n + 1) (.obj sk sfields) inst =
      [(refFailure r e).inKeyword "$ref"] ∧
    (refFailure r e).cause = some e := by
  constructor
  · simp only [iterErrors]
    rw [href]
    dsimp only
    rw [hres]
    rfl
  · rfl

/-- C9 witness: the theorem applied to the empty resolver and a concrete
unresolvable reference, its hypotheses discharged definitionally. -/
theorem c9_witness :
    (lookupKey [("$ref", JSON.str "http://example.com/missing")] "$ref" =
       some (.str "http://example.com/missing") ∧
     emptyResolver.resolve "http://example.com/missing" =
       .error ⟨"http://example.com/missing"⟩) ∧
    (iterErrors defaultTypeChecker emptyResolver 1 missingRefSchema emptyObj =
       [(refFailure "http://example.com/missing"
          ⟨"http://example.com/missing"⟩).inKeyword "$ref"] ∧
     (refFailure "http://example.com/missing" ⟨"http://example.com/missing"⟩).cause =
       some ⟨"http://example.com/missing"⟩) :=
  ⟨⟨rfl, rfl⟩,
   c9_ref_failure_wrapped defaultTypeChecker emptyResolver 0 .unordered
     [("$ref", JSON.str "http://example.com/missing")] emptyObj
     "http://example.com/missing" ⟨"http://example.com/missing"⟩ rfl rfl⟩

/-- C10: there is a schema/instance pair that validates successfully — a
bare remote `$ref` to a document declaring a defaulted property, the
miniature of the official suite remote-ref and valid-definition-schema
cases — for which the transformed output of serialize is not equal to the
original instance: output-equals-input on valid data does not hold
universally. -/
theorem c10_valid_but_serialize_output_differs :
    iterErrors defaultTypeChecker remoteResolver 3 remoteRefSchema emptyObj = [] ∧
    isValid defaultTypeChecker remoteResolver 3 remoteRefSchema emptyObj = true ∧
    (coreSerialize defaultTypeChecker remoteResolver 3 remoteRefSchema emptyObj).1 ≠
      emptyObj :=
  ⟨rfl, rfl, JSON.ne_of_beq_false rfl⟩
